import Mathlib

/-!
Verification of the serde bridge of simdjson-rust: the deserialization
adapter (`src/serde/de.rs`), the streaming serialization adapter
(`src/serde/ser.rs`) and the bounded-depth generic-value converter
(`src/serde/value.rs`), embedded shallowly.

The external collaborators (the simdjson C++ string builder behind
`src/builder.rs`, the DOM node view of `dom.rs`, and the serde binding
protocol) are modelled from the specification: the output buffer is
abstracted as the sequence of append operations performed on it (the
byte-level rendering of each token lives in the C++ collaborator), and
the DOM node view is a tree with the accessor surface of spec section 6.

Machine floating-point values are embedded as an inductive carrying the
non-finite classes explicitly and the exact rational value of a finite
double, which is all the adapters ever inspect (finiteness checks and
widening/narrowing casts).
-/

namespace SimdJsonRust

/-- `SimdJsonError`: the `Serde(String)` variant is the one produced by the
adapters themselves; `dom` stands for the pass-through failures reported by
the external DOM accessors, whose message text is not part of this
repository. -/
inductive SimdJsonError where
  | serde (msg : String)
  | dom (msg : String)
deriving DecidableEq, Repr

/-- An IEEE 754 binary64 value, embedded by its classification: the finite
case carries the exact rational value of the double (every finite double is
a rational). -/
inductive F64 where
  | nan
  | inf (neg : Bool)
  | finite (val : ℚ)
deriving DecidableEq, Repr

/-- `f64::is_finite`. -/
def F64.is_finite : F64 → Bool
  | .finite _ => true
  | _ => false

/-- The `Display` rendering of an `f64` as used in the non-finite error
message: `NaN`, `inf`, `-inf`.  (The finite rendering is never reached by
an error path; we use the rational's own rendering for it.) -/
def F64.display : F64 → String
  | .nan => "NaN"
  | .inf false => "inf"
  | .inf true => "-inf"
  | .finite v => toString v

/-- An IEEE 754 binary32 value, embedded like `F64`. -/
inductive F32 where
  | nan
  | inf (neg : Bool)
  | finite (val : ℚ)
deriving DecidableEq, Repr

/-- The Rust cast `v as f64` on an `f32`: exact value-preserving widening;
NaN maps to NaN and each infinity to the same infinity. -/
def f32ToF64 : F32 → F64
  | .nan => .nan
  | .inf b => .inf b
  | .finite v => .finite v

/-- Round half to even, to an integer. -/
def rne (q : ℚ) : ℤ :=
  let f := ⌊q⌋
  let r := q - (f : ℚ)
  if r < 1/2 then f
  else if 1/2 < r then f + 1
  else if 2 ∣ f then f else f + 1

/-- Magnitude at and beyond which rounding a real value to binary32
(round-to-nearest, ties to even) overflows to infinity:
`2^128 - 2^103` is the midpoint between the largest finite binary32
(`2^128 - 2^104`) and `2^128`. -/
def f32OverflowBound : ℚ := 2 ^ 128 - 2 ^ 103

/-- Round a nonzero finite real value to the nearest binary32 value
(round-to-nearest, ties to even), as a rational; subnormal granularity
below `2^(-126)` is respected.  Only used below `f32OverflowBound`. -/
def roundF32 (v : ℚ) : ℚ :=
  if v = 0 then 0
  else
    let a := |v|
    let sgn : ℚ := if v < 0 then -1 else 1
    let e : ℤ := max (Int.log 2 a) (-126)
    let ulp : ℚ := 2 ^ (e - 23)
    sgn * (rne (a / ulp) : ℚ) * ulp

/-- The Rust cast `v as f32` on an `f64`: saturating-to-infinity rounding
cast — NaN maps to NaN, each infinity to the same infinity, finite values
are rounded to the nearest binary32, overflowing to the like-signed
infinity. -/
def f64ToF32 : F64 → F32
  | .nan => .nan
  | .inf b => .inf b
  | .finite v =>
    if f32OverflowBound ≤ |v| then .inf (decide (v < 0))
    else .finite (roundF32 v)

/-- One append operation of the external string builder; the byte output of
the builder is abstracted as the list of appended tokens (spec section 6:
all structural-token operations are unconditional appends). -/
inductive Token where
  | startObj
  | endObj
  | startArr
  | endArr
  | comma
  | colon
  | jNull
  | jBool (b : Bool)
  | jI64 (v : ℤ)
  | jU64 (v : ℕ)
  | jF64 (v : F64)
  | jStr (s : String)
deriving DecidableEq, Repr

/-- `StringBuilder` (builder.rs): an append-only buffer.  The capacity is
recorded because `with_capacity` takes it, but no append operation reads
it — pre-allocation has no observable effect on the contents. -/
structure StringBuilder where
  capacity : ℕ
  toks : List Token
deriving DecidableEq, Repr

/-- `StringBuilder::with_capacity(capacity)`. -/
def StringBuilder.with_capacity (c : ℕ) : StringBuilder := ⟨c, []⟩

/-- `DEFAULT_INITIAL_CAPACITY` in builder.rs. -/
def DEFAULT_INITIAL_CAPACITY : ℕ := 1024

/-- `StringBuilder::new()`: `with_capacity(DEFAULT_INITIAL_CAPACITY)`. -/
def StringBuilder.new : StringBuilder := .with_capacity DEFAULT_INITIAL_CAPACITY

/-- An append of one token to the buffer. -/
def StringBuilder.push (b : StringBuilder) (t : Token) : StringBuilder :=
  ⟨b.capacity, b.toks ++ [t]⟩

def StringBuilder.append_bool (b : StringBuilder) (v : Bool) : StringBuilder := b.push (.jBool v)

def StringBuilder.append_i64 (b : StringBuilder) (v : ℤ) : StringBuilder := b.push (.jI64 v)

def StringBuilder.append_u64 (b : StringBuilder) (v : ℕ) : StringBuilder := b.push (.jU64 v)

def StringBuilder.append_f64 (b : StringBuilder) (v : F64) : StringBuilder := b.push (.jF64 v)

def StringBuilder.append_null (b : StringBuilder) : StringBuilder := b.push .jNull

/-- `append_string`: quoted-escaped string append; the escaping is done by
the SIMD collaborator, so the token carries the source string. -/
def StringBuilder.append_string (b : StringBuilder) (s : String) : StringBuilder := b.push (.jStr s)

def StringBuilder.start_object (b : StringBuilder) : StringBuilder := b.push .startObj

def StringBuilder.end_object (b : StringBuilder) : StringBuilder := b.push .endObj

def StringBuilder.start_array (b : StringBuilder) : StringBuilder := b.push .startArr

def StringBuilder.end_array (b : StringBuilder) : StringBuilder := b.push .endArr

def StringBuilder.append_comma (b : StringBuilder) : StringBuilder := b.push .comma

def StringBuilder.append_colon (b : StringBuilder) : StringBuilder := b.push .colon

/-- `StringBuilder::into_string`: the view of the written buffer (abstracted
as the token sequence; the `view` error path belongs to the FFI collaborator
and is not reachable in the model). -/
def StringBuilder.into_string (b : StringBuilder) : Except SimdJsonError (List Token) :=
  .ok b.toks

mutual
/-- The serde data model as driven through `Serializer for BuilderSerializer`
(ser.rs): the value kinds whose serialization the adapter implements and the
claims mention.  `TVList` and `TVFields` are the element list of a
sequence/tuple payload and the named-field list of a struct payload. -/
inductive TypedValue where
  | vBool (b : Bool)
  | vI64 (v : ℤ)
  | vU64 (v : ℕ)
  | vF32 (v : F32)
  | vF64 (v : F64)
  | vStr (s : String)
  | vUnit
  | vNone
  | vSome (x : TypedValue)
  | vSeq (xs : TVList)
  | vTuple (xs : TVList)
  | vStruct (fields : TVFields)
  | vUnitVariant (name : String)
  | vNewtypeVariant (name : String) (payload : TypedValue)
  | vTupleVariant (name : String) (xs : TVList)
  | vStructVariant (name : String) (fields : TVFields)
inductive TVList where
  | nil
  | cons (hd : TypedValue) (tl : TVList)
inductive TVFields where
  | nil
  | cons (key : String) (hd : TypedValue) (tl : TVFields)
end

mutual
/--
The serialization adapter (ser.rs), as the effect of `value.serialize(&mut
BuilderSerializer::new(builder))` on the builder: returns the builder after
the call together with the error, if any (on error the builder keeps the
partial output already appended, which is not rolled back).

Case-by-case image of the source:
* `serialize_bool/i64/u64` append the scalar;
* `serialize_f32` appends `v as f64` unconditionally;
* `serialize_f64` rejects non-finite values before appending anything;
* `serialize_str` appends the escaped-quoted string;
* `serialize_unit`/`serialize_none` append `null`;
* `serialize_some` serializes the payload in place;
* `serialize_seq`/`serialize_tuple` open a bracket, then
  `SerializeSeq::serialize_element` puts a comma before every element
  except the first (a `first` flag local to this sequence's scope), and
  `end` closes the bracket — reached only when every element succeeded;
* `serialize_struct` opens a brace and `SerializeStruct::serialize_field`
  emits comma-separated key-colon-value pairs, `end` closes the brace;
* `serialize_unit_variant` emits the variant name as a string;
* `serialize_newtype_variant` emits a single-key object whose value is the
  payload's own encoding;
* `serialize_tuple_variant` emits a single-key object whose value is the
  element array;
* `serialize_struct_variant` emits a single-key object whose value is the
  field object.
-/
def serializeValue : TypedValue → StringBuilder → StringBuilder × Option SimdJsonError
  | .vBool v, b => (b.append_bool v, none)
  | .vI64 v, b => (b.append_i64 v, none)
  | .vU64 v, b => (b.append_u64 v, none)
  | .vF32 v, b => (b.append_f64 (f32ToF64 v), none)
  | .vF64 v, b =>
    if v.is_finite then (b.append_f64 v, none)
    else (b, some (.serde ("cannot serialize non-finite float: " ++ v.display)))
  | .vStr s, b => (b.append_string s, none)
  | .vUnit, b => (b.append_null, none)
  | .vNone, b => (b.append_null, none)
  | .vSome x, b => serializeValue x b
  | .vSeq xs, b =>
    match serializeSeqElems xs true (b.start_array) with
    | (b2, none) => (b2.end_array, none)
    | (b2, some e) => (b2, some e)
  | .vTuple xs, b =>
    match serializeSeqElems xs true (b.start_array) with
    | (b2, none) => (b2.end_array, none)
    | (b2, some e) => (b2, some e)
  | .vStruct fs, b =>
    match serializeStructFields fs true (b.start_object) with
    | (b2, none) => (b2.end_object, none)
    | (b2, some e) => (b2, some e)
  | .vUnitVariant n, b => (b.append_string n, none)
  | .vNewtypeVariant n p, b =>
    match serializeValue p (((b.start_object).append_string n).append_colon) with
    | (b2, none) => (b2.end_object, none)
    | (b2, some e) => (b2, some e)
  | .vTupleVariant n xs, b =>
    match serializeSeqElems xs true ((((b.start_object).append_string n).append_colon).start_array) with
    | (b2, none) => ((b2.end_array).end_object, none)
    | (b2, some e) => (b2, some e)
  | .vStructVariant n fs, b =>
    match serializeStructFields fs true ((((b.start_object).append_string n).append_colon).start_object) with
    | (b2, none) => ((b2.end_object).end_object, none)
    | (b2, some e) => (b2, some e)
def serializeSeqElems : TVList → Bool → StringBuilder → StringBuilder × Option SimdJsonError
  | .nil, _, b => (b, none)
  | .cons x tl, first, b =>
    match serializeValue x (if first then b else b.append_comma) with
    | (b2, none) => serializeSeqElems tl false b2
    | (b2, some e) => (b2, some e)
def serializeStructFields : TVFields → Bool → StringBuilder → StringBuilder × Option SimdJsonError
  | .nil, _, b => (b, none)
  | .cons k v tl, first, b =>
    match serializeValue v (((if first then b else b.append_comma).append_string k).append_colon) with
    | (b2, none) => serializeStructFields tl false b2
    | (b2, some e) => (b2, some e)
end

/-- `to_string` (ser.rs): serialize into a fresh default-capacity builder and
take its contents. -/
def to_string (v : TypedValue) : Except SimdJsonError (List Token) :=
  match serializeValue v StringBuilder.new with
  | (b, none) => b.into_string
  | (_, some e) => .error e

/-- `to_string_with_capacity` (ser.rs): identical, but the fresh builder is
pre-allocated with the given capacity hint. -/
def to_string_with_capacity (v : TypedValue) (capacity : ℕ) : Except SimdJsonError (List Token) :=
  match serializeValue v (StringBuilder.with_capacity capacity) with
  | (b, none) => b.into_string
  | (_, some e) => .error e

mutual
/-- Modelled from the spec: the DOM node view of `dom.rs` (absent from the
provided sources) per spec section 6 — a read-only reference into the parsed
tree carrying a type tag in Null, Bool, Int64, UInt64, Double, String,
Array, Object, with scalar accessors and array/object iteration.  An `arr`
node holds its element nodes in order; an `obj` node holds its key/value
pairs in order (key uniqueness is guaranteed upstream by the parser). -/
inductive Element where
  | null
  | int64 (v : ℤ)
  | uint64 (v : ℕ)
  | double (v : F64)
  | bool (b : Bool)
  | str (s : String)
  | arr (xs : EList)
  | obj (kvs : EFields)
inductive EList where
  | nil
  | cons (hd : Element) (tl : EList)
inductive EFields where
  | nil
  | cons (key : String) (hd : Element) (tl : EFields)
end

/-- `ElementType` (dom.rs): the node type tag. -/
inductive ElementType where
  | NullValue
  | Bool
  | Int64
  | UInt64
  | Double
  | String
  | Array
  | Object
deriving DecidableEq, Repr

def I64_MIN : ℤ := -(2 ^ 63)

def I64_MAX : ℤ := 2 ^ 63 - 1

def U64_MAX : ℕ := 2 ^ 64 - 1

/-- Modelled from the spec: `Element::get_type`. -/
def Element.get_type : Element → ElementType
  | .null => .NullValue
  | .bool _ => .Bool
  | .int64 _ => .Int64
  | .uint64 _ => .UInt64
  | .double _ => .Double
  | .str _ => .String
  | .arr _ => .Array
  | .obj _ => .Object

/-- Modelled from the spec: `Element::get_bool`, failing with a pass-through
DOM error when the tag mismatches. -/
def Element.get_bool : Element → Except SimdJsonError Bool
  | .bool b => .ok b
  | _ => .error (.dom "incorrect type: expected bool")

/-- Modelled from the spec: `Element::get_int64` — the node's natural 64-bit
signed reading.  Following the underlying simdjson accessors (exercised by
the repository's tests), an unsigned node converts when it fits in `i64`;
any non-number tag is a pass-through DOM error. -/
def Element.get_int64 : Element → Except SimdJsonError ℤ
  | .int64 v => .ok v
  | .uint64 n => if (n : ℤ) ≤ I64_MAX then .ok (n : ℤ) else .error (.dom "number out of range: i64")
  | _ => .error (.dom "incorrect type: expected i64")

/-- Modelled from the spec: `Element::get_uint64` — the node's natural
64-bit unsigned reading.  Following the underlying simdjson accessors
(exercised by the repository's tests), a signed node converts when it is
nonnegative; any non-number tag is a pass-through DOM error. -/
def Element.get_uint64 : Element → Except SimdJsonError ℕ
  | .uint64 n => .ok n
  | .int64 v => if 0 ≤ v then .ok v.toNat else .error (.dom "number out of range: u64")
  | _ => .error (.dom "incorrect type: expected u64")

/-- Modelled from the spec: `Element::get_double`. -/
def Element.get_double : Element → Except SimdJsonError F64
  | .double d => .ok d
  | _ => .error (.dom "incorrect type: expected double")

/-- Modelled from the spec: `Element::get_string`. -/
def Element.get_string : Element → Except SimdJsonError String
  | .str s => .ok s
  | _ => .error (.dom "incorrect type: expected string")

/-- Modelled from the spec: `Element::is_null`. -/
def Element.is_null : Element → Bool
  | .null => true
  | _ => false

/-- Modelled from the spec: `Element::get_array`, yielding the array's
element iterator (its in-order element list). -/
def Element.get_array : Element → Except SimdJsonError EList
  | .arr xs => .ok xs
  | _ => .error (.dom "incorrect type: expected array")

/-- Modelled from the spec: `Element::get_object`, yielding the object's
key/value iterator (its in-order pair list). -/
def Element.get_object : Element → Except SimdJsonError EFields
  | .obj kvs => .ok kvs
  | _ => .error (.dom "incorrect type: expected object")

/-!
The deserialization adapter (de.rs).  The serde visitor driven by each
`deserialize_*` method is external; each method is embedded as the value it
hands to the visitor (`visit_bool`, `visit_i8` after narrowing, ...), so
the embedded function returns that value or the adapter's error.
-/

/-- `deserialize_bool`. -/
def deserialize_bool (e : Element) : Except SimdJsonError Bool :=
  e.get_bool

/-- `deserialize_i64`. -/
def deserialize_i64 (e : Element) : Except SimdJsonError ℤ :=
  e.get_int64

/-- `deserialize_u64`. -/
def deserialize_u64 (e : Element) : Except SimdJsonError ℕ :=
  e.get_uint64

/-- `deserialize_i8`: read the natural signed 64-bit value, then
`i8::try_from` with the overflow error message of the source. -/
def deserialize_i8 (e : Element) : Except SimdJsonError ℤ :=
  match e.get_int64 with
  | .error er => .error er
  | .ok v =>
    if -128 ≤ v ∧ v ≤ 127 then .ok v
    else .error (.serde ("i64 value " ++ toString v ++ " out of range for i8"))

/-- `deserialize_i16`. -/
def deserialize_i16 (e : Element) : Except SimdJsonError ℤ :=
  match e.get_int64 with
  | .error er => .error er
  | .ok v =>
    if -32768 ≤ v ∧ v ≤ 32767 then .ok v
    else .error (.serde ("i64 value " ++ toString v ++ " out of range for i16"))

/-- `deserialize_i32`. -/
def deserialize_i32 (e : Element) : Except SimdJsonError ℤ :=
  match e.get_int64 with
  | .error er => .error er
  | .ok v =>
    if -2147483648 ≤ v ∧ v ≤ 2147483647 then .ok v
    else .error (.serde ("i64 value " ++ toString v ++ " out of range for i32"))

/-- `deserialize_u8`: read the natural unsigned 64-bit value, then
`u8::try_from` with the overflow error message of the source. -/
def deserialize_u8 (e : Element) : Except SimdJsonError ℕ :=
  match e.get_uint64 with
  | .error er => .error er
  | .ok v =>
    if v ≤ 255 then .ok v
    else .error (.serde ("u64 value " ++ toString v ++ " out of range for u8"))

/-- `deserialize_u16`. -/
def deserialize_u16 (e : Element) : Except SimdJsonError ℕ :=
  match e.get_uint64 with
  | .error er => .error er
  | .ok v =>
    if v ≤ 65535 then .ok v
    else .error (.serde ("u64 value " ++ toString v ++ " out of range for u16"))

/-- `deserialize_u32`. -/
def deserialize_u32 (e : Element) : Except SimdJsonError ℕ :=
  match e.get_uint64 with
  | .error er => .error er
  | .ok v =>
    if v ≤ 4294967295 then .ok v
    else .error (.serde ("u64 value " ++ toString v ++ " out of range for u32"))

/-- `deserialize_f64`: `visit_f64(self.get_double()?)`. -/
def deserialize_f64 (e : Element) : Except SimdJsonError F64 :=
  e.get_double

/-- `deserialize_f32`: `visit_f32(self.get_double()? as f32)` — an
unchecked narrowing cast, in contrast to the integer paths. -/
def deserialize_f32 (e : Element) : Except SimdJsonError F32 :=
  (e.get_double).map f64ToF32

/-- `deserialize_char`: read as string, succeed only on exactly one
character. -/
def deserialize_char (e : Element) : Except SimdJsonError Char :=
  match e.get_string with
  | .error er => .error er
  | .ok s =>
    match s.toList with
    | [c] => .ok c
    | _ => .error (.serde "expected a single character string")

/-- The resolution `deserialize_enum` hands to the visitor: a string node
resolves to the variant named by the string (unit-variant path); an object
node resolves to its first key/value pair. -/
inductive EnumShape where
  | strVariant (name : String)
  | keyedVariant (name : String) (payload : Element)

/-- `deserialize_enum` (de.rs lines 266-300) up to the visitor call:
dispatch on the node type tag; a string yields the unit-variant
resolution; an object takes `iter.next()` — its first key/value pair, or
the single-key error when the object is empty; every other tag is an
error. -/
def enumResolve (e : Element) : Except SimdJsonError EnumShape :=
  match e.get_type with
  | .String =>
    match e.get_string with
    | .ok s => .ok (.strVariant s)
    | .error er => .error er
  | .Object =>
    match e.get_object with
    | .ok kvs =>
      match kvs with
      | .cons k v _ => .ok (.keyedVariant k v)
      | .nil => .error (.serde "expected an object with a single key for enum")
    | .error er => .error er
  | _ => .error (.serde "expected a string or object for enum")

/-- `MapAccessor` (de.rs): the two-phase cursor over an object node — the
remaining key/value iterator plus the pending-value slot filled by
`next_key_seed` and emptied by `next_value_seed`. -/
structure MapAccessor where
  iter : EFields
  pending_value : Option Element

/-- `MapAccessor::new`. -/
def MapAccessor.new (kvs : EFields) : MapAccessor := ⟨kvs, none⟩

/-- `next_key_seed`: advance the iterator; on a pair, store the value in the
pending slot and hand the key (as an owned string) to the key seed; at the
end of the object, yield `none` (the pending slot is left as it was, as in
the source). -/
def MapAccessor.next_key_seed : MapAccessor → Option String × MapAccessor
  | ⟨.cons k v tl, _⟩ => (some k, ⟨tl, some v⟩)
  | ⟨.nil, p⟩ => (none, ⟨.nil, p⟩)

/-- `next_value_seed`: take the pending value and hand it to the value seed;
with an empty pending slot this is the protocol-misuse error of the
source. -/
def MapAccessor.next_value_seed (m : MapAccessor) :
    Except SimdJsonError (Element × MapAccessor) :=
  match m.pending_value with
  | some v => .ok (v, ⟨m.iter, none⟩)
  | none => .error (.serde "next_value_seed called before next_key_seed")

/-- `serde_json::Number` as built by the converter: `Number::from(i64)`
stores nonnegative values in the unsigned representation (so signed and
unsigned nodes of the same nonnegative value convert to equal numbers),
`Number::from(u64)` is unsigned, and `Number::from_f64` accepts exactly the
finite doubles. -/
inductive JNumber where
  | posInt (n : ℕ)
  | negInt (v : ℤ)
  | float (v : ℚ)
deriving DecidableEq, Repr

/-- `Number::from(v: i64)`. -/
def JNumber.fromI64 (v : ℤ) : JNumber :=
  if 0 ≤ v then .posInt v.toNat else .negInt v

/-- `Number::from(v: u64)`. -/
def JNumber.fromU64 (n : ℕ) : JNumber := .posInt n

/-- `Number::from_f64`: `Some` exactly on finite doubles. -/
def JNumber.fromF64 : F64 → Option JNumber
  | .finite v => some (.float v)
  | _ => none

mutual
/-- Modelled from the spec: `serde_json::Value`, the generic tagged value —
Null, Bool, Number, String, Array (ordered), Object (mapping of string to
value, insertion order preserved, keys unique — the map type itself lives
outside the provided sources, so its insertion-order reading is taken from
the spec's data-model section). -/
inductive JValue where
  | null
  | bool (b : Bool)
  | num (n : JNumber)
  | str (s : String)
  | arr (xs : JList)
  | obj (kvs : JFields)
inductive JList where
  | nil
  | cons (hd : JValue) (tl : JList)
inductive JFields where
  | nil
  | cons (key : String) (hd : JValue) (tl : JFields)
end

/-- `MAX_NESTING_DEPTH` (value.rs). -/
def MAX_NESTING_DEPTH : ℕ := 128

mutual
/-- `element_to_value_inner` (value.rs): fail when `depth` exceeds the
ceiling, otherwise dispatch on the node type; scalars convert directly
(a non-finite double is an error at conversion time), arrays and objects
recurse on each child with `depth + 1`, in iteration order (`convEList` and
`convEFields` are the two source `for` loops; `Map::insert` with the
upstream key-uniqueness guarantee is the in-order extension of the field
list). -/
def element_to_value_inner (e : Element) (depth : ℕ) : Except SimdJsonError JValue :=
  if depth > MAX_NESTING_DEPTH then
    .error (.serde ("nesting depth exceeds maximum of " ++ toString MAX_NESTING_DEPTH))
  else
    match e with
    | .null => .ok .null
    | .bool b => .ok (.bool b)
    | .str s => .ok (.str s)
    | .int64 v => .ok (.num (.fromI64 v))
    | .uint64 n => .ok (.num (.fromU64 n))
    | .double d =>
      match JNumber.fromF64 d with
      | some n => .ok (.num n)
      | none =>
        .error (.serde ("cannot represent " ++ d.display ++ " as a JSON number (NaN or Infinity)"))
    | .arr xs =>
      match convEList xs (depth + 1) with
      | .ok ws => .ok (.arr ws)
      | .error er => .error er
    | .obj kvs =>
      match convEFields kvs (depth + 1) with
      | .ok ws => .ok (.obj ws)
      | .error er => .error er
def convEList (xs : EList) (depth : ℕ) : Except SimdJsonError JList :=
  match xs with
  | .nil => .ok .nil
  | .cons e tl =>
    match element_to_value_inner e depth with
    | .ok w =>
      match convEList tl depth with
      | .ok ws => .ok (.cons w ws)
      | .error er => .error er
    | .error er => .error er
def convEFields (kvs : EFields) (depth : ℕ) : Except SimdJsonError JFields :=
  match kvs with
  | .nil => .ok .nil
  | .cons k e tl =>
    match element_to_value_inner e depth with
    | .ok w =>
      match convEFields tl depth with
      | .ok ws => .ok (.cons k w ws)
      | .error er => .error er
    | .error er => .error er
end

/-- `element_to_value` (value.rs): conversion from the root at depth 0. -/
def element_to_value (e : Element) : Except SimdJsonError JValue :=
  element_to_value_inner e 0

mutual
/-- Nesting height of a DOM tree: a scalar or empty container adds nothing;
a container's height is one more than its tallest child.  A node of height
`h` reached at recursion depth `d` makes the converter visit a node at
depth `d + h`. -/
def eheight : Element → ℕ
  | .arr xs => elHeights xs
  | .obj kvs => efHeights kvs
  | _ => 0
def elHeights : EList → ℕ
  | .nil => 0
  | .cons e tl => max (1 + eheight e) (elHeights tl)
def efHeights : EFields → ℕ
  | .nil => 0
  | .cons _ e tl => max (1 + eheight e) (efHeights tl)
end

mutual
/-- Every double in the tree is finite — the well-formedness invariant of a
parser-produced DOM (JSON text has no NaN or Infinity literal). -/
def finiteDoubles : Element → Bool
  | .double d => d.is_finite
  | .arr xs => finiteDoublesList xs
  | .obj kvs => finiteDoublesFields kvs
  | _ => true
def finiteDoublesList : EList → Bool
  | .nil => true
  | .cons e tl => finiteDoubles e && finiteDoublesList tl
def finiteDoublesFields : EFields → Bool
  | .nil => true
  | .cons _ e tl => finiteDoubles e && finiteDoublesFields tl
end

def EList.toList : EList → List Element
  | .nil => []
  | .cons e tl => e :: tl.toList

def EFields.toList : EFields → List (String × Element)
  | .nil => []
  | .cons k e tl => (k, e) :: tl.toList

def EFields.names : EFields → List String
  | .nil => []
  | .cons k _ tl => k :: tl.names

def JList.toList : JList → List JValue
  | .nil => []
  | .cons w tl => w :: tl.toList

def JFields.toList : JFields → List (String × JValue)
  | .nil => []
  | .cons k w tl => (k, w) :: tl.toList

def JFields.names : JFields → List String
  | .nil => []
  | .cons k _ tl => k :: tl.names

def TVList.toList : TVList → List TypedValue
  | .nil => []
  | .cons x tl => x :: tl.toList

mutual
/-- Modelled from the spec: the external simdjson parser, at the
granularity of the builder's append operations (each token renders to one
lexeme of the emitted JSON text).  A JSON value is one scalar token, or a
bracketed comma-separated element list, or a braced comma-separated list of
string-key colon value pairs.  An integer literal becomes an `Int64` node
when it fits in `i64` and a `UInt64` node otherwise (simdjson's number
tagging).  `fuel` is a recursion budget; any budget at least the token
count suffices. -/
def parseValue : ℕ → List Token → Option (Element × List Token)
  | 0, _ => none
  | _ + 1, [] => none
  | fuel + 1, t :: ts =>
    match t with
    | .jNull => some (.null, ts)
    | .jBool b => some (.bool b, ts)
    | .jI64 v => some (.int64 v, ts)
    | .jU64 n => if (n : ℤ) ≤ I64_MAX then some (.int64 (n : ℤ), ts) else some (.uint64 n, ts)
    | .jF64 d => some (.double d, ts)
    | .jStr s => some (.str s, ts)
    | .startArr =>
      match parseArrItems fuel ts true with
      | some (es, rest) => some (.arr es, rest)
      | none => none
    | .startObj =>
      match parseObjItems fuel ts true with
      | some (fs, rest) => some (.obj fs, rest)
      | none => none
    | _ => none
  termination_by structural fuel _ => fuel
def parseArrItems : ℕ → List Token → Bool → Option (EList × List Token)
  | 0, _, _ => none
  | _ + 1, .endArr :: rest, _ => some (.nil, rest)
  | fuel + 1, ts, true =>
    match parseValue fuel ts with
    | some (e, rest) =>
      match parseArrItems fuel rest false with
      | some (es, rest2) => some (.cons e es, rest2)
      | none => none
    | none => none
  | fuel + 1, .comma :: ts, false =>
    match parseValue fuel ts with
    | some (e, rest) =>
      match parseArrItems fuel rest false with
      | some (es, rest2) => some (.cons e es, rest2)
      | none => none
    | none => none
  | _ + 1, _, false => none
  termination_by structural fuel _ _ => fuel
def parseObjItems : ℕ → List Token → Bool → Option (EFields × List Token)
  | 0, _, _ => none
  | _ + 1, .endObj :: rest, _ => some (.nil, rest)
  | fuel + 1, .jStr k :: .colon :: ts, true =>
    match parseValue fuel ts with
    | some (e, rest) =>
      match parseObjItems fuel rest false with
      | some (fs, rest2) => some (.cons k e fs, rest2)
      | none => none
    | none => none
  | fuel + 1, .comma :: .jStr k :: .colon :: ts, false =>
    match parseValue fuel ts with
    | some (e, rest) =>
      match parseObjItems fuel rest false with
      | some (fs, rest2) => some (.cons k e fs, rest2)
      | none => none
    | none => none
  | _ + 1, _, _ => none
  termination_by structural fuel _ _ => fuel
end

/-- Modelled from the spec: parsing a complete serialized document — the
whole token stream must be consumed. -/
def parseTop (ts : List Token) : Option Element :=
  match parseValue (ts.length + 1) ts with
  | some (e, []) => some e
  | _ => none

/-- The tokens `serializeValue v` appends to any builder (computed from the
empty builder; by `serializeValue_append` the appended suffix is the same
for every starting builder). -/
def encToks (v : TypedValue) : List Token :=
  (serializeValue v (StringBuilder.with_capacity 0)).1.toks

/-- The error outcome of `serializeValue v`, independent of the builder. -/
def encErr (v : TypedValue) : Option SimdJsonError :=
  (serializeValue v (StringBuilder.with_capacity 0)).2

/-- The tokens `serializeSeqElems xs first` appends. -/
def encSeqToks (xs : TVList) (first : Bool) : List Token :=
  (serializeSeqElems xs first (StringBuilder.with_capacity 0)).1.toks

def encSeqErr (xs : TVList) (first : Bool) : Option SimdJsonError :=
  (serializeSeqElems xs first (StringBuilder.with_capacity 0)).2

/-- The tokens `serializeStructFields fs first` appends. -/
def encFieldToks (fs : TVFields) (first : Bool) : List Token :=
  (serializeStructFields fs first (StringBuilder.with_capacity 0)).1.toks

def encFieldErr (fs : TVFields) (first : Bool) : Option SimdJsonError :=
  (serializeStructFields fs first (StringBuilder.with_capacity 0)).2

/-- The per-element encodings of a sequence, in order. -/
def encList (xs : TVList) : List (List Token) :=
  xs.toList.map encToks

/-- Whether a value's JSON encoding is the single token `null` (unit, an
absent optional, or a present optional around such a value — an optional's
payload encodes in place). -/
def encodesNull : TypedValue → Bool
  | .vUnit => true
  | .vNone => true
  | .vSome x => encodesNull x
  | _ => false

mutual
/-- The DOM node that parsing the serialized encoding of a value yields
(proved against the token parser in the round-trip development): scalars
map to their nodes, nonnegative integers within `i64` are tagged signed
(the parser's number tagging), optionals collapse onto their payload or
`null`, containers map childwise, and the enum shapes follow the wire
encodings of the spec. -/
def elemOf : TypedValue → Element
  | .vBool b => .bool b
  | .vI64 v => .int64 v
  | .vU64 n => if (n : ℤ) ≤ I64_MAX then .int64 (n : ℤ) else .uint64 n
  | .vF32 x => .double (f32ToF64 x)
  | .vF64 d => .double d
  | .vStr s => .str s
  | .vUnit => .null
  | .vNone => .null
  | .vSome x => elemOf x
  | .vSeq xs => .arr (elemOfList xs)
  | .vTuple xs => .arr (elemOfList xs)
  | .vStruct fs => .obj (elemOfFields fs)
  | .vUnitVariant n => .str n
  | .vNewtypeVariant n p => .obj (.cons n (elemOf p) .nil)
  | .vTupleVariant n xs => .obj (.cons n (.arr (elemOfList xs)) .nil)
  | .vStructVariant n fs => .obj (.cons n (.obj (elemOfFields fs)) .nil)
def elemOfList : TVList → EList
  | .nil => .nil
  | .cons x tl => .cons (elemOf x) (elemOfList tl)
def elemOfFields : TVFields → EFields
  | .nil => .nil
  | .cons k x tl => .cons k (elemOf x) (elemOfFields tl)
end

mutual
/--
The deserialization adapter driven at the shape of a given typed value
(the shape argument's own payloads are ignored; only its structure and
names direct the requests).  Each case is the composition of the adapter's
`deserialize_*` method (de.rs) with the behavior of a derived visitor on
the round-trip-reachable path:

* scalars read the matching accessor;
* a unit request succeeds on any node (`deserialize_unit` never looks at
  the node);
* an optional request maps `null` to absent and otherwise recurses into
  the present payload (`deserialize_option`);
* sequence/tuple requests read the array node elementwise
  (`SeqAccessor`); the value-directed shape pairs elements positionally;
* a struct request walks the object node through the two-phase
  `MapAccessor` cursor; the value-directed shape expects the declared
  field names in declaration order (the order a derived struct visitor
  receives on input this serializer produced);
* enum requests go through `enumResolve` and then the
  `VariantAccess` methods: `unit_variant` on an object key is the
  source's error, a newtype/tuple/struct variant reads its payload node,
  and a non-unit variant arriving as a bare string fails in the binding
  protocol's string deserializer.
-/
def deserializeLike : TypedValue → Element → Except SimdJsonError TypedValue
  | .vBool _, e => (e.get_bool).map .vBool
  | .vI64 _, e => (e.get_int64).map .vI64
  | .vU64 _, e => (e.get_uint64).map .vU64
  | .vF32 _, e => (e.get_double).map (fun d => .vF32 (f64ToF32 d))
  | .vF64 _, e => (e.get_double).map .vF64
  | .vStr _, e => (e.get_string).map .vStr
  | .vUnit, _ => .ok .vUnit
  | .vNone, e =>
    if e.is_null then .ok .vNone
    else .error (.serde "absent optional shape does not determine a payload shape")
  | .vSome x, e =>
    if e.is_null then .ok .vNone
    else (deserializeLike x e).map .vSome
  | .vSeq xs, e =>
    match e.get_array with
    | .ok es => (deserializeLikeList xs es).map .vSeq
    | .error er => .error er
  | .vTuple xs, e =>
    match e.get_array with
    | .ok es => (deserializeLikeList xs es).map .vTuple
    | .error er => .error er
  | .vStruct fs, e =>
    match e.get_object with
    | .ok kvs => (deserializeLikeFields fs kvs).map .vStruct
    | .error er => .error er
  | .vUnitVariant _, e =>
    match enumResolve e with
    | .ok (.strVariant s) => .ok (.vUnitVariant s)
    | .ok (.keyedVariant _ _) =>
      .error (.serde "expected a string for unit variant, got an object key")
    | .error er => .error er
  | .vNewtypeVariant _ p, e =>
    match enumResolve e with
    | .ok (.keyedVariant n payload) => (deserializeLike p payload).map (.vNewtypeVariant n)
    | .ok (.strVariant _) =>
      .error (.serde "invalid type: unit variant, expected newtype variant")
    | .error er => .error er
  | .vTupleVariant _ xs, e =>
    match enumResolve e with
    | .ok (.keyedVariant n payload) =>
      match payload.get_array with
      | .ok es => (deserializeLikeList xs es).map (.vTupleVariant n)
      | .error er => .error er
    | .ok (.strVariant _) =>
      .error (.serde "invalid type: unit variant, expected tuple variant")
    | .error er => .error er
  | .vStructVariant _ fs, e =>
    match enumResolve e with
    | .ok (.keyedVariant n payload) =>
      match payload.get_object with
      | .ok kvs => (deserializeLikeFields fs kvs).map (.vStructVariant n)
      | .error er => .error er
    | .ok (.strVariant _) =>
      .error (.serde "invalid type: unit variant, expected struct variant")
    | .error er => .error er
def deserializeLikeList : TVList → EList → Except SimdJsonError TVList
  | .nil, .nil => .ok .nil
  | .cons x xs, .cons e es =>
    match deserializeLike x e with
    | .ok y =>
      match deserializeLikeList xs es with
      | .ok ys => .ok (.cons y ys)
      | .error er => .error er
    | .error er => .error er
  | _, _ => .error (.serde "sequence length does not match the requested shape")
def deserializeLikeFields : TVFields → EFields → Except SimdJsonError TVFields
  | .nil, .nil => .ok .nil
  | .cons k x xs, .cons k2 e es =>
    if k = k2 then
      match deserializeLike x e with
      | .ok y =>
        match deserializeLikeFields xs es with
        | .ok ys => .ok (.cons k2 y ys)
        | .error er => .error er
      | .error er => .error er
    else .error (.serde "unexpected field name")
  | _, _ => .error (.serde "field count does not match the requested shape")
end

mutual
/-- The round-trip domain: values the round-trip claim quantifies over —
integers within their machine ranges, finite 64-bit floats (a non-finite
float is not serializable at all), no 32-bit floats (float narrowing is
outside the claim's listed shapes), and no present optional whose payload
itself encodes as `null`. -/
def rtOK : TypedValue → Bool
  | .vBool _ => true
  | .vI64 v => decide (I64_MIN ≤ v ∧ v ≤ I64_MAX)
  | .vU64 n => decide (n ≤ U64_MAX)
  | .vF32 _ => false
  | .vF64 d => d.is_finite
  | .vStr _ => true
  | .vUnit => true
  | .vNone => true
  | .vSome x => rtOK x && !encodesNull x
  | .vSeq xs => rtOKList xs
  | .vTuple xs => rtOKList xs
  | .vStruct fs => rtOKFields fs
  | .vUnitVariant _ => true
  | .vNewtypeVariant _ p => rtOK p
  | .vTupleVariant _ xs => rtOKList xs
  | .vStructVariant _ fs => rtOKFields fs
def rtOKList : TVList → Bool
  | .nil => true
  | .cons x tl => rtOK x && rtOKList tl
def rtOKFields : TVFields → Bool
  | .nil => true
  | .cons _ x tl => rtOK x && rtOKFields tl
end

/-- Join a list of encodings with a comma before every element except the
first — the separator discipline the first-element flag of
`SerializeSeq::serialize_element` implements. -/
def joinComma : List (List Token) → List Token
  | [] => []
  | x :: rest => x ++ joinCommaTail rest
where
  joinCommaTail : List (List Token) → List Token
    | [] => []
    | y :: r => .comma :: y ++ joinCommaTail r

/-- Every element of the sequence serializes without error. -/
def allElemsOk : TVList → Bool
  | .nil => true
  | .cons x tl => decide (encErr x = none) && allElemsOk tl

/-- A singly-nested chain of one-key objects, `n` containers deep, with an
integer at the bottom — the depth-test document of the repository's
`deep_nesting_protection` test. -/
def nestObj : ℕ → Element
  | 0 => .int64 1
  | n + 1 => .obj (.cons "a" (nestObj n) .nil)

/-- A concrete value exercising structs, sequences, tuples, optionals and
all four enum shapes, used to instantiate the round-trip theorem. -/
def sampleRoundtripValue : TypedValue :=
  .vStruct (.cons "seq" (.vSeq (.cons (.vU64 3) (.cons (.vI64 (-7)) .nil)))
    (.cons "tup" (.vTuple (.cons (.vBool true) (.cons (.vStr "x") .nil)))
    (.cons "opt" (.vSome (.vStr "y"))
    (.cons "nop" .vNone
    (.cons "unit" (.vUnitVariant "Red")
    (.cons "newt" (.vNewtypeVariant "Circle" (.vF64 (.finite (63 / 20))))
    (.cons "tupv" (.vTupleVariant "Pair" (.cons (.vU64 1) (.cons (.vU64 2) .nil)))
    (.cons "strv" (.vStructVariant "Rect"
      (.cons "w" (.vF64 (.finite 10)) (.cons "h" (.vF64 (.finite 5)) .nil)))
    .nil))))))))

/-- A concrete element list with a nested sequence in the middle, used to
instantiate the comma-discipline theorem. -/
def sampleSeq : TVList :=
  .cons (.vI64 1)
    (.cons (.vSeq (.cons (.vI64 2) (.cons (.vI64 3) .nil)))
      (.cons (.vI64 4) .nil))

/-- A token list that starts with a token able to open a JSON value (not a
closer or separator) — true of every serialized encoding. -/
def headGood : List Token → Prop
  | [] => False
  | t :: _ => t ≠ .endArr ∧ t ≠ .endObj ∧ t ≠ .comma ∧ t ≠ .colon

mutual
/-- A size measure on typed values under which a variant's payload, even
re-wrapped as the single-field object or element array it encodes as, is
smaller than the variant (used as the induction measure of the
parse-of-encode development). -/
def tvSize : TypedValue → ℕ
  | .vSome x => 1 + tvSize x
  | .vSeq xs => 1 + tvlSize xs
  | .vTuple xs => 1 + tvlSize xs
  | .vStruct fs => 1 + tvfSize fs
  | .vNewtypeVariant _ p => 2 + tvSize p
  | .vTupleVariant _ xs => 3 + tvlSize xs
  | .vStructVariant _ fs => 3 + tvfSize fs
  | _ => 0
def tvlSize : TVList → ℕ
  | .nil => 0
  | .cons x tl => 1 + tvSize x + tvlSize tl
def tvfSize : TVFields → ℕ
  | .nil => 0
  | .cons _ x tl => 1 + tvSize x + tvfSize tl
end

attribute [simp] StringBuilder.push StringBuilder.with_capacity StringBuilder.append_bool
  StringBuilder.append_i64 StringBuilder.append_u64 StringBuilder.append_f64
  StringBuilder.append_null StringBuilder.append_string StringBuilder.start_object
  StringBuilder.end_object StringBuilder.start_array StringBuilder.end_array
  StringBuilder.append_comma StringBuilder.append_colon

mutual
/-- The serializer only appends: running it on any builder leaves the
capacity alone and appends the same token suffix (and returns the same
error outcome) as running it on an empty builder. -/
theorem serializeValue_append : ∀ (v : TypedValue) (b : StringBuilder),
    serializeValue v b = (⟨b.capacity, b.toks ++ encToks v⟩, encErr v)
  | .vBool x, b => by simp [serializeValue, encToks, encErr]
  | .vI64 x, b => by simp [serializeValue, encToks, encErr]
  | .vU64 x, b => by simp [serializeValue, encToks, encErr]
  | .vF32 x, b => by simp [serializeValue, encToks, encErr]
  | .vF64 x, b => by
    cases hf : x.is_finite <;> simp [serializeValue, encToks, encErr, hf]
  | .vStr s, b => by simp [serializeValue, encToks, encErr]
  | .vUnit, b => by simp [serializeValue, encToks, encErr]
  | .vNone, b => by simp [serializeValue, encToks, encErr]
  | .vSome x, b => serializeValue_append x b
  | .vSeq xs, b => by
    have hb := serializeSeqElems_append xs true (b.start_array)
    have h0 := serializeSeqElems_append xs true ((StringBuilder.with_capacity 0).start_array)
    simp only [serializeValue, encToks, encErr]
    rw [hb, h0]
    cases hE : encSeqErr xs true <;> simp [List.append_assoc]
  | .vTuple xs, b => by
    have hb := serializeSeqElems_append xs true (b.start_array)
    have h0 := serializeSeqElems_append xs true ((StringBuilder.with_capacity 0).start_array)
    simp only [serializeValue, encToks, encErr]
    rw [hb, h0]
    cases hE : encSeqErr xs true <;> simp [List.append_assoc]
  | .vStruct fs, b => by
    have hb := serializeStructFields_append fs true (b.start_object)
    have h0 := serializeStructFields_append fs true ((StringBuilder.with_capacity 0).start_object)
    simp only [serializeValue, encToks, encErr]
    rw [hb, h0]
    cases hE : encFieldErr fs true <;> simp [List.append_assoc]
  | .vUnitVariant n, b => by simp [serializeValue, encToks, encErr]
  | .vNewtypeVariant n p, b => by
    have hb := serializeValue_append p (((b.start_object).append_string n).append_colon)
    have h0 := serializeValue_append p
      ((((StringBuilder.with_capacity 0).start_object).append_string n).append_colon)
    simp only [serializeValue, encToks, encErr]
    rw [hb, h0]
    cases hE : encErr p <;> simp [List.append_assoc]
  | .vTupleVariant n xs, b => by
    have hb := serializeSeqElems_append xs true
      ((((b.start_object).append_string n).append_colon).start_array)
    have h0 := serializeSeqElems_append xs true
      (((((StringBuilder.with_capacity 0).start_object).append_string n).append_colon).start_array)
    simp only [serializeValue, encToks, encErr]
    rw [hb, h0]
    cases hE : encSeqErr xs true <;> simp [List.append_assoc]
  | .vStructVariant n fs, b => by
    have hb := serializeStructFields_append fs true
      ((((b.start_object).append_string n).append_colon).start_object)
    have h0 := serializeStructFields_append fs true
      (((((StringBuilder.with_capacity 0).start_object).append_string n).append_colon).start_object)
    simp only [serializeValue, encToks, encErr]
    rw [hb, h0]
    cases hE : encFieldErr fs true <;> simp [List.append_assoc]
theorem serializeSeqElems_append : ∀ (xs : TVList) (first : Bool) (b : StringBuilder),
    serializeSeqElems xs first b =
      (⟨b.capacity, b.toks ++ encSeqToks xs first⟩, encSeqErr xs first)
  | .nil, first, b => by simp [serializeSeqElems, encSeqToks, encSeqErr]
  | .cons x tl, first, b => by
    have hx := serializeValue_append x (if first then b else b.append_comma)
    have hx0 := serializeValue_append x
      (if first then StringBuilder.with_capacity 0
       else (StringBuilder.with_capacity 0).append_comma)
    simp only [serializeSeqElems, encSeqToks, encSeqErr]
    rw [hx, hx0]
    cases hE : encErr x with
    | some e => cases first <;> simp [List.append_assoc]
    | none =>
      have ht := serializeSeqElems_append tl false
        ⟨(if first then b else b.append_comma).capacity,
          (if first then b else b.append_comma).toks ++ encToks x⟩
      have ht0 := serializeSeqElems_append tl false
        ⟨(if first then StringBuilder.with_capacity 0
           else (StringBuilder.with_capacity 0).append_comma).capacity,
          (if first then StringBuilder.with_capacity 0
           else (StringBuilder.with_capacity 0).append_comma).toks ++ encToks x⟩
      dsimp only
      rw [ht, ht0]
      cases first <;> simp [List.append_assoc]
theorem serializeStructFields_append : ∀ (fs : TVFields) (first : Bool) (b : StringBuilder),
    serializeStructFields fs first b =
      (⟨b.capacity, b.toks ++ encFieldToks fs first⟩, encFieldErr fs first)
  | .nil, first, b => by simp [serializeStructFields, encFieldToks, encFieldErr]
  | .cons k x tl, first, b => by
    have hx := serializeValue_append x
      (((if first then b else b.append_comma).append_string k).append_colon)
    have hx0 := serializeValue_append x
      (((if first then StringBuilder.with_capacity 0
          else (StringBuilder.with_capacity 0).append_comma).append_string k).append_colon)
    simp only [serializeStructFields, encFieldToks, encFieldErr]
    rw [hx, hx0]
    cases hE : encErr x with
    | some e => cases first <;> simp [List.append_assoc]
    | none =>
      have ht := serializeStructFields_append tl false
        ⟨(((if first then b else b.append_comma).append_string k).append_colon).capacity,
          (((if first then b else b.append_comma).append_string k).append_colon).toks ++ encToks x⟩
      have ht0 := serializeStructFields_append tl false
        ⟨(((if first then StringBuilder.with_capacity 0
             else (StringBuilder.with_capacity 0).append_comma).append_string k).append_colon).capacity,
          (((if first then StringBuilder.with_capacity 0
             else (StringBuilder.with_capacity 0).append_comma).append_string k).append_colon).toks ++ encToks x⟩
      dsimp only
      rw [ht, ht0]
      cases first <;> simp [List.append_assoc]
end

@[simp] theorem toks_serializeValue (v : TypedValue) :
    (serializeValue v ⟨0, []⟩).1.toks = encToks v := rfl

@[simp] theorem err_serializeValue (v : TypedValue) :
    (serializeValue v ⟨0, []⟩).2 = encErr v := rfl

@[simp] theorem toks_serializeSeqElems (tl : TVList) (first : Bool) :
    (serializeSeqElems tl first ⟨0, []⟩).1.toks = encSeqToks tl first := rfl

@[simp] theorem err_serializeSeqElems (tl : TVList) (first : Bool) :
    (serializeSeqElems tl first ⟨0, []⟩).2 = encSeqErr tl first := rfl

@[simp] theorem toks_serializeStructFields (tl : TVFields) (first : Bool) :
    (serializeStructFields tl first ⟨0, []⟩).1.toks = encFieldToks tl first := rfl

@[simp] theorem err_serializeStructFields (tl : TVFields) (first : Bool) :
    (serializeStructFields tl first ⟨0, []⟩).2 = encFieldErr tl first := rfl

theorem encSeq_cons_ok (x : TypedValue) (tl : TVList) (first : Bool) (h : encErr x = none) :
    encSeqToks (.cons x tl) first =
      (if first then [] else [Token.comma]) ++ encToks x ++ encSeqToks tl false ∧
    encSeqErr (.cons x tl) first = encSeqErr tl false := by
  have hx := serializeValue_append x
    (if first then StringBuilder.with_capacity 0
     else (StringBuilder.with_capacity 0).append_comma)
  have ht := serializeSeqElems_append tl false
    ⟨(if first then StringBuilder.with_capacity 0
       else (StringBuilder.with_capacity 0).append_comma).capacity,
      (if first then StringBuilder.with_capacity 0
       else (StringBuilder.with_capacity 0).append_comma).toks ++ encToks x⟩
  constructor <;>
    · simp only [encSeqToks, encSeqErr, serializeSeqElems]
      rw [hx, h]
      dsimp only
      rw [ht]
      cases first <;> (try simp) <;> (try rfl)

theorem encField_cons_ok (k : String) (x : TypedValue) (tl : TVFields) (first : Bool)
    (h : encErr x = none) :
    encFieldToks (.cons k x tl) first =
      (if first then [] else [Token.comma]) ++ [Token.jStr k, Token.colon] ++ encToks x ++
        encFieldToks tl false ∧
    encFieldErr (.cons k x tl) first = encFieldErr tl false := by
  have hx := serializeValue_append x
    (((if first then StringBuilder.with_capacity 0
        else (StringBuilder.with_capacity 0).append_comma).append_string k).append_colon)
  have ht := serializeStructFields_append tl false
    ⟨(((if first then StringBuilder.with_capacity 0
         else (StringBuilder.with_capacity 0).append_comma).append_string k).append_colon).capacity,
      (((if first then StringBuilder.with_capacity 0
         else (StringBuilder.with_capacity 0).append_comma).append_string k).append_colon).toks ++
        encToks x⟩
  constructor <;>
    · simp only [encFieldToks, encFieldErr, serializeStructFields]
      rw [hx, h]
      dsimp only
      rw [ht]
      cases first <;> (try simp) <;> (try rfl)

theorem encToks_vSeq (xs : TVList) (h : encSeqErr xs true = none) :
    encToks (.vSeq xs) = .startArr :: (encSeqToks xs true ++ [Token.endArr]) ∧
    encErr (.vSeq xs) = none := by
  have hb := serializeSeqElems_append xs true ((StringBuilder.with_capacity 0).start_array)
  constructor <;>
    · simp only [encToks, encErr, serializeValue]
      rw [hb, h]
      try simp
      try rfl

theorem encToks_vTuple (xs : TVList) (h : encSeqErr xs true = none) :
    encToks (.vTuple xs) = .startArr :: (encSeqToks xs true ++ [Token.endArr]) ∧
    encErr (.vTuple xs) = none := by
  have hb := serializeSeqElems_append xs true ((StringBuilder.with_capacity 0).start_array)
  constructor <;>
    · simp only [encToks, encErr, serializeValue]
      rw [hb, h]
      try simp
      try rfl

theorem encToks_vStruct (fs : TVFields) (h : encFieldErr fs true = none) :
    encToks (.vStruct fs) = .startObj :: (encFieldToks fs true ++ [Token.endObj]) ∧
    encErr (.vStruct fs) = none := by
  have hb := serializeStructFields_append fs true ((StringBuilder.with_capacity 0).start_object)
  constructor <;>
    · simp only [encToks, encErr, serializeValue]
      rw [hb, h]
      try simp
      try rfl

theorem encToks_vNewtypeVariant (n : String) (p : TypedValue) (h : encErr p = none) :
    encToks (.vNewtypeVariant n p) =
      .startObj :: .jStr n :: .colon :: (encToks p ++ [Token.endObj]) ∧
    encErr (.vNewtypeVariant n p) = none := by
  have hb := serializeValue_append p
    ((((StringBuilder.with_capacity 0).start_object).append_string n).append_colon)
  constructor <;>
    · simp only [encToks, encErr, serializeValue]
      rw [hb, h]
      try simp
      try rfl

theorem encToks_vTupleVariant (n : String) (xs : TVList) (h : encSeqErr xs true = none) :
    encToks (.vTupleVariant n xs) =
      .startObj :: .jStr n :: .colon :: .startArr ::
        (encSeqToks xs true ++ [Token.endArr, Token.endObj]) ∧
    encErr (.vTupleVariant n xs) = none := by
  have hb := serializeSeqElems_append xs true
    (((((StringBuilder.with_capacity 0).start_object).append_string n).append_colon).start_array)
  constructor <;>
    · simp only [encToks, encErr, serializeValue]
      rw [hb, h]
      try simp
      try rfl

theorem encToks_vStructVariant (n : String) (fs : TVFields) (h : encFieldErr fs true = none) :
    encToks (.vStructVariant n fs) =
      .startObj :: .jStr n :: .colon :: .startObj ::
        (encFieldToks fs true ++ [Token.endObj, Token.endObj]) ∧
    encErr (.vStructVariant n fs) = none := by
  have hb := serializeStructFields_append fs true
    (((((StringBuilder.with_capacity 0).start_object).append_string n).append_colon).start_object)
  constructor <;>
    · simp only [encToks, encErr, serializeValue]
      rw [hb, h]
      try simp
      try rfl

/-- A successfully serialized value's encoding starts with a token that can
open a JSON value. -/
theorem encToks_headGood : ∀ v : TypedValue, encErr v = none → headGood (encToks v)
  | .vBool x, _ => by simp [encToks, serializeValue, headGood]
  | .vI64 x, _ => by simp [encToks, serializeValue, headGood]
  | .vU64 x, _ => by simp [encToks, serializeValue, headGood]
  | .vF32 x, _ => by simp [encToks, serializeValue, headGood]
  | .vF64 x, h => by
    cases hf : x.is_finite with
    | true => simp [encToks, serializeValue, hf, headGood]
    | false => simp [encErr, serializeValue, hf] at h
  | .vStr s, _ => by simp [encToks, serializeValue, headGood]
  | .vUnit, _ => by simp [encToks, serializeValue, headGood]
  | .vNone, _ => by simp [encToks, serializeValue, headGood]
  | .vSome x, h => encToks_headGood x h
  | .vSeq xs, _ => by
    have hb := serializeSeqElems_append xs true ((StringBuilder.with_capacity 0).start_array)
    simp only [encToks, serializeValue]
    rw [hb]
    cases encSeqErr xs true <;> simp [headGood]
  | .vTuple xs, _ => by
    have hb := serializeSeqElems_append xs true ((StringBuilder.with_capacity 0).start_array)
    simp only [encToks, serializeValue]
    rw [hb]
    cases encSeqErr xs true <;> simp [headGood]
  | .vStruct fs, _ => by
    have hb := serializeStructFields_append fs true ((StringBuilder.with_capacity 0).start_object)
    simp only [encToks, serializeValue]
    rw [hb]
    cases encFieldErr fs true <;> simp [headGood]
  | .vUnitVariant n, _ => by simp [encToks, serializeValue, headGood]
  | .vNewtypeVariant n p, _ => by
    have hb := serializeValue_append p
      ((((StringBuilder.with_capacity 0).start_object).append_string n).append_colon)
    simp only [encToks, serializeValue]
    rw [hb]
    cases encErr p <;> simp [headGood]
  | .vTupleVariant n xs, _ => by
    have hb := serializeSeqElems_append xs true
      (((((StringBuilder.with_capacity 0).start_object).append_string n).append_colon).start_array)
    simp only [encToks, serializeValue]
    rw [hb]
    cases encSeqErr xs true <;> simp [headGood]
  | .vStructVariant n fs, _ => by
    have hb := serializeStructFields_append fs true
      (((((StringBuilder.with_capacity 0).start_object).append_string n).append_colon).start_object)
    simp only [encToks, serializeValue]
    rw [hb]
    cases encFieldErr fs true <;> simp [headGood]

theorem length_encToks_pos (v : TypedValue) (h : encErr v = none) : 0 < (encToks v).length := by
  have hg := encToks_headGood v h
  cases hv : encToks v with
  | nil => rw [hv] at hg; cases hg
  | cons t ts => simp [hv]

mutual
/-- A value accepted by the round-trip domain serializes without error. -/
theorem rtOK_encErr : ∀ v : TypedValue, rtOK v = true → encErr v = none
  | .vBool _, _ => rfl
  | .vI64 _, _ => rfl
  | .vU64 _, _ => rfl
  | .vF32 _, h => by exact Bool.noConfusion h
  | .vF64 d, h => by
    have hf : d.is_finite = true := h
    simp [encErr, serializeValue, hf]
  | .vStr _, _ => rfl
  | .vUnit, _ => rfl
  | .vNone, _ => rfl
  | .vSome x, h => by
    have h2 : (rtOK x && !encodesNull x) = true := h
    rw [Bool.and_eq_true] at h2
    exact rtOK_encErr x h2.1
  | .vSeq xs, h => (encToks_vSeq xs (rtOKList_encSeqErr xs true h)).2
  | .vTuple xs, h => (encToks_vTuple xs (rtOKList_encSeqErr xs true h)).2
  | .vStruct fs, h => (encToks_vStruct fs (rtOKFields_encFieldErr fs true h)).2
  | .vUnitVariant _, _ => rfl
  | .vNewtypeVariant n p, h => (encToks_vNewtypeVariant n p (rtOK_encErr p h)).2
  | .vTupleVariant n xs, h => (encToks_vTupleVariant n xs (rtOKList_encSeqErr xs true h)).2
  | .vStructVariant n fs, h => (encToks_vStructVariant n fs (rtOKFields_encFieldErr fs true h)).2
theorem rtOKList_encSeqErr : ∀ (xs : TVList) (first : Bool),
    rtOKList xs = true → encSeqErr xs first = none
  | .nil, _, _ => rfl
  | .cons x tl, first, h => by
    have h2 : (rtOK x && rtOKList tl) = true := h
    rw [Bool.and_eq_true] at h2
    rw [(encSeq_cons_ok x tl first (rtOK_encErr x h2.1)).2]
    exact rtOKList_encSeqErr tl false h2.2
theorem rtOKFields_encFieldErr : ∀ (fs : TVFields) (first : Bool),
    rtOKFields fs = true → encFieldErr fs first = none
  | .nil, _, _ => rfl
  | .cons k x tl, first, h => by
    have h2 : (rtOK x && rtOKFields tl) = true := h
    rw [Bool.and_eq_true] at h2
    rw [(encField_cons_ok k x tl first (rtOK_encErr x h2.1)).2]
    exact rtOKFields_encFieldErr tl false h2.2
end

/-- A value's DOM image is the null node exactly when its encoding is the
`null` token. -/
theorem elemOf_is_null : ∀ v : TypedValue, (elemOf v).is_null = encodesNull v
  | .vBool _ => rfl
  | .vI64 _ => rfl
  | .vU64 n => by unfold elemOf; split <;> rfl
  | .vF32 _ => rfl
  | .vF64 _ => rfl
  | .vStr _ => rfl
  | .vUnit => rfl
  | .vNone => rfl
  | .vSome x => elemOf_is_null x
  | .vSeq _ => rfl
  | .vTuple _ => rfl
  | .vStruct _ => rfl
  | .vUnitVariant _ => rfl
  | .vNewtypeVariant _ _ => rfl
  | .vTupleVariant _ _ => rfl
  | .vStructVariant _ _ => rfl

/-- On a token list that does not start with the closing bracket, the
array-items parser with remaining fuel takes the element branch. -/
theorem parseArrItems_true (f : ℕ) (ts : List Token) (h : headGood ts) :
    parseArrItems (f + 1) ts true =
      match parseValue f ts with
      | some (e, rest) =>
        match parseArrItems f rest false with
        | some (es, rest2) => some (.cons e es, rest2)
        | none => none
      | none => none := by
  cases ts with
  | nil => cases h
  | cons t ts2 =>
    obtain ⟨h1, h2, h3, h4⟩ := h
    cases t
    case endArr => exact absurd rfl h1
    all_goals rfl

@[simp] theorem encSeqToks_nil (first : Bool) : encSeqToks .nil first = [] := rfl

@[simp] theorem encFieldToks_nil (first : Bool) : encFieldToks .nil first = [] := rfl

theorem encSeq_cons_true (x : TypedValue) (tl : TVList) (h : encErr x = none) :
    encSeqToks (.cons x tl) true = encToks x ++ encSeqToks tl false := by
  rw [(encSeq_cons_ok x tl true h).1]
  simp

theorem encSeq_cons_false (x : TypedValue) (tl : TVList) (h : encErr x = none) :
    encSeqToks (.cons x tl) false = .comma :: (encToks x ++ encSeqToks tl false) := by
  rw [(encSeq_cons_ok x tl false h).1]
  simp

theorem encField_cons_true (k : String) (x : TypedValue) (tl : TVFields) (h : encErr x = none) :
    encFieldToks (.cons k x tl) true =
      .jStr k :: .colon :: (encToks x ++ encFieldToks tl false) := by
  rw [(encField_cons_ok k x tl true h).1]
  simp

theorem encField_cons_false (k : String) (x : TypedValue) (tl : TVFields) (h : encErr x = none) :
    encFieldToks (.cons k x tl) false =
      .comma :: .jStr k :: .colon :: (encToks x ++ encFieldToks tl false) := by
  rw [(encField_cons_ok k x tl false h).1]
  simp

theorem headGood_append (l l2 : List Token) (h : headGood l) : headGood (l ++ l2) := by
  cases l with
  | nil => cases h
  | cons t ts => exact h

mutual
/-- Parse-of-encode: on the round-trip domain, parsing the serialized
encoding of a value, followed by any suffix, yields exactly the value's DOM
image and the untouched suffix, for any fuel above the encoding length. -/
theorem parse_encToks : ∀ (v : TypedValue), rtOK v = true →
    ∀ (f : ℕ) (rest : List Token), (encToks v).length < f →
      parseValue f (encToks v ++ rest) = some (elemOf v, rest)
  | .vBool x, _, f, rest, hf => by
    cases f with
    | zero => simp [encToks, serializeValue] at hf
    | succ f1 => rfl
  | .vI64 x, _, f, rest, hf => by
    cases f with
    | zero => simp [encToks, serializeValue] at hf
    | succ f1 => rfl
  | .vU64 n, _, f, rest, hf => by
    cases f with
    | zero => simp [encToks, serializeValue] at hf
    | succ f1 =>
      show parseValue (f1 + 1) (Token.jU64 n :: rest) = some (elemOf (.vU64 n), rest)
      by_cases hn : (n : ℤ) ≤ I64_MAX <;> simp [parseValue, elemOf, hn]
  | .vF32 x, h, f, rest, hf => by exact Bool.noConfusion h
  | .vF64 d, h, f, rest, hf => by
    have hfin : d.is_finite = true := h
    cases d with
    | finite q =>
      cases f with
      | zero => simp [encToks, serializeValue, F64.is_finite] at hf
      | succ f1 => rfl
    | nan => exact Bool.noConfusion hfin
    | inf b => exact Bool.noConfusion hfin
  | .vStr s, _, f, rest, hf => by
    cases f with
    | zero => simp [encToks, serializeValue] at hf
    | succ f1 => rfl
  | .vUnit, _, f, rest, hf => by
    cases f with
    | zero => simp [encToks, serializeValue] at hf
    | succ f1 => rfl
  | .vNone, _, f, rest, hf => by
    cases f with
    | zero => simp [encToks, serializeValue] at hf
    | succ f1 => rfl
  | .vSome x, h, f, rest, hf => by
    have hx : rtOK x = true := by
      have h2 : (rtOK x && !encodesNull x) = true := h
      rw [Bool.and_eq_true] at h2
      exact h2.1
    exact parse_encToks x hx f rest hf
  | .vSeq xs, h, f, rest, hf => by
    have hl : rtOKList xs = true := h
    have hse := rtOKList_encSeqErr xs true hl
    have he := (encToks_vSeq xs hse).1
    rw [he] at hf ⊢
    cases f with
    | zero => simp at hf
    | succ f1 =>
      have hlen : (encSeqToks xs true).length + 1 < f1 := by
        simp only [List.length_cons, List.length_append, List.length_singleton] at hf
        omega
      simp only [List.cons_append, List.append_assoc, List.singleton_append, List.nil_append]
      simp only [parseValue]
      rw [parse_encSeq xs true hl f1 rest hlen]
      rfl
  | .vTuple xs, h, f, rest, hf => by
    have hl : rtOKList xs = true := h
    have hse := rtOKList_encSeqErr xs true hl
    have he := (encToks_vTuple xs hse).1
    rw [he] at hf ⊢
    cases f with
    | zero => simp at hf
    | succ f1 =>
      have hlen : (encSeqToks xs true).length + 1 < f1 := by
        simp only [List.length_cons, List.length_append, List.length_singleton] at hf
        omega
      simp only [List.cons_append, List.append_assoc, List.singleton_append, List.nil_append]
      simp only [parseValue]
      rw [parse_encSeq xs true hl f1 rest hlen]
      rfl
  | .vStruct fs, h, f, rest, hf => by
    have hff : rtOKFields fs = true := h
    have hfe := rtOKFields_encFieldErr fs true hff
    have he := (encToks_vStruct fs hfe).1
    rw [he] at hf ⊢
    cases f with
    | zero => simp at hf
    | succ f1 =>
      have hlen : (encFieldToks fs true).length + 1 < f1 := by
        simp only [List.length_cons, List.length_append, List.length_singleton] at hf
        omega
      simp only [List.cons_append, List.append_assoc, List.singleton_append, List.nil_append]
      simp only [parseValue]
      rw [parse_encFields fs true hff f1 rest hlen]
      rfl
  | .vUnitVariant n, _, f, rest, hf => by
    cases f with
    | zero => simp [encToks, serializeValue] at hf
    | succ f1 => rfl
  | .vNewtypeVariant n p, h, f, rest, hf => by
    have hp : rtOK p = true := h
    have hep := rtOK_encErr p hp
    have hff : rtOKFields (.cons n p .nil) = true := by simp [rtOKFields, hp]
    have he : encToks (.vNewtypeVariant n p) =
        .startObj :: (encFieldToks (.cons n p .nil) true ++ [Token.endObj]) := by
      rw [(encToks_vNewtypeVariant n p hep).1, encField_cons_true n p .nil hep]
      simp
    rw [he] at hf ⊢
    cases f with
    | zero => simp at hf
    | succ f1 =>
      have hlen : (encFieldToks (.cons n p .nil) true).length + 1 < f1 := by
        simp only [List.length_cons, List.length_append, List.length_singleton] at hf
        omega
      simp only [List.cons_append, List.append_assoc, List.singleton_append, List.nil_append]
      simp only [parseValue]
      rw [parse_encFields (.cons n p .nil) true hff f1 rest hlen]
      rfl
  | .vTupleVariant n xs, h, f, rest, hf => by
    have hl : rtOKList xs = true := h
    have hse := rtOKList_encSeqErr xs true hl
    have heseq := (encToks_vSeq xs hse).1
    have hesqe : encErr (TypedValue.vSeq xs) = none := (encToks_vSeq xs hse).2
    have hff : rtOKFields (.cons n (.vSeq xs) .nil) = true := by
      simp [rtOKFields, rtOK, hl]
    have he : encToks (.vTupleVariant n xs) =
        .startObj :: (encFieldToks (.cons n (.vSeq xs) .nil) true ++ [Token.endObj]) := by
      rw [(encToks_vTupleVariant n xs hse).1, encField_cons_true n (.vSeq xs) .nil hesqe, heseq]
      simp
    rw [he] at hf ⊢
    cases f with
    | zero => simp at hf
    | succ f1 =>
      have hlen : (encFieldToks (.cons n (.vSeq xs) .nil) true).length + 1 < f1 := by
        simp only [List.length_cons, List.length_append, List.length_singleton] at hf
        omega
      simp only [List.cons_append, List.append_assoc, List.singleton_append, List.nil_append]
      simp only [parseValue]
      rw [parse_encFields (.cons n (.vSeq xs) .nil) true hff f1 rest hlen]
      rfl
  | .vStructVariant n fs, h, f, rest, hf => by
    have hff2 : rtOKFields fs = true := h
    have hfe := rtOKFields_encFieldErr fs true hff2
    have hestr := (encToks_vStruct fs hfe).1
    have hesre : encErr (TypedValue.vStruct fs) = none := (encToks_vStruct fs hfe).2
    have hff : rtOKFields (.cons n (.vStruct fs) .nil) = true := by
      simp [rtOKFields, rtOK, hff2]
    have he : encToks (.vStructVariant n fs) =
        .startObj :: (encFieldToks (.cons n (.vStruct fs) .nil) true ++ [Token.endObj]) := by
      rw [(encToks_vStructVariant n fs hfe).1, encField_cons_true n (.vStruct fs) .nil hesre,
        hestr]
      simp
    rw [he] at hf ⊢
    cases f with
    | zero => simp at hf
    | succ f1 =>
      have hlen : (encFieldToks (.cons n (.vStruct fs) .nil) true).length + 1 < f1 := by
        simp only [List.length_cons, List.length_append, List.length_singleton] at hf
        omega
      simp only [List.cons_append, List.append_assoc, List.singleton_append, List.nil_append]
      simp only [parseValue]
      rw [parse_encFields (.cons n (.vStruct fs) .nil) true hff f1 rest hlen]
      rfl
  termination_by v _ f rest _ => tvSize v
  decreasing_by all_goals (simp [tvSize, tvlSize, tvfSize]; try omega)
theorem parse_encSeq : ∀ (xs : TVList) (first : Bool), rtOKList xs = true →
    ∀ (f : ℕ) (rest : List Token), (encSeqToks xs first).length + 1 < f →
      parseArrItems f (encSeqToks xs first ++ .endArr :: rest) first =
        some (elemOfList xs, rest)
  | .nil, first, _, f, rest, hf => by
    cases f with
    | zero => simp at hf
    | succ f1 => cases first <;> rfl
  | .cons x tl, first, h, f, rest, hf => by
    have h2 : (rtOK x && rtOKList tl) = true := h
    rw [Bool.and_eq_true] at h2
    have hex := rtOK_encErr x h2.1
    have hposx := length_encToks_pos x hex
    cases first with
    | true =>
      have he := encSeq_cons_true x tl hex
      rw [he] at hf ⊢
      cases f with
      | zero => simp at hf
      | succ f1 =>
        simp only [List.length_append] at hf
        have hg := headGood_append (encToks x)
          (encSeqToks tl false ++ .endArr :: rest) (encToks_headGood x hex)
        rw [List.append_assoc]
        rw [parseArrItems_true f1 _ hg]
        rw [parse_encToks x h2.1 f1 (encSeqToks tl false ++ .endArr :: rest) (by omega)]
        dsimp only
        rw [parse_encSeq tl false h2.2 f1 rest (by omega)]
        rfl
    | false =>
      have he := encSeq_cons_false x tl hex
      rw [he] at hf ⊢
      cases f with
      | zero => simp at hf
      | succ f1 =>
        simp only [List.length_cons, List.length_append] at hf
        simp only [List.cons_append, List.append_assoc]
        simp only [parseArrItems]
        rw [parse_encToks x h2.1 f1 (encSeqToks tl false ++ .endArr :: rest) (by omega)]
        dsimp only
        rw [parse_encSeq tl false h2.2 f1 rest (by omega)]
        rfl
  termination_by xs first _ f rest _ => tvlSize xs
  decreasing_by all_goals (simp [tvSize, tvlSize, tvfSize]; try omega)
theorem parse_encFields : ∀ (fs : TVFields) (first : Bool), rtOKFields fs = true →
    ∀ (f : ℕ) (rest : List Token), (encFieldToks fs first).length + 1 < f →
      parseObjItems f (encFieldToks fs first ++ .endObj :: rest) first =
        some (elemOfFields fs, rest)
  | .nil, first, _, f, rest, hf => by
    cases f with
    | zero => simp at hf
    | succ f1 => cases first <;> rfl
  | .cons k x tl, first, h, f, rest, hf => by
    have h2 : (rtOK x && rtOKFields tl) = true := h
    rw [Bool.and_eq_true] at h2
    have hex := rtOK_encErr x h2.1
    have hposx := length_encToks_pos x hex
    cases first with
    | true =>
      have he := encField_cons_true k x tl hex
      rw [he] at hf ⊢
      cases f with
      | zero => simp at hf
      | succ f1 =>
        simp only [List.length_cons, List.length_append] at hf
        simp only [List.cons_append, List.append_assoc]
        simp only [parseObjItems]
        rw [parse_encToks x h2.1 f1 (encFieldToks tl false ++ .endObj :: rest) (by omega)]
        dsimp only
        rw [parse_encFields tl false h2.2 f1 rest (by omega)]
        rfl
    | false =>
      have he := encField_cons_false k x tl hex
      rw [he] at hf ⊢
      cases f with
      | zero => simp at hf
      | succ f1 =>
        simp only [List.length_cons, List.length_append] at hf
        simp only [List.cons_append, List.append_assoc]
        simp only [parseObjItems]
        rw [parse_encToks x h2.1 f1 (encFieldToks tl false ++ .endObj :: rest) (by omega)]
        dsimp only
        rw [parse_encFields tl false h2.2 f1 rest (by omega)]
        rfl
  termination_by fs first _ f rest _ => tvfSize fs
  decreasing_by all_goals (simp [tvSize, tvlSize, tvfSize]; try omega)
end

mutual
/-- Deserializing a value's DOM image at the value's own shape gives the
value back, on the round-trip domain. -/
theorem deserialize_elemOf : ∀ v : TypedValue, rtOK v = true →
    deserializeLike v (elemOf v) = .ok v
  | .vBool _, _ => rfl
  | .vI64 _, _ => rfl
  | .vU64 n, _ => by
    by_cases hn : (n : ℤ) ≤ I64_MAX <;>
      simp [elemOf, hn, deserializeLike, Element.get_uint64, Except.map]
  | .vF32 _, h => by exact Bool.noConfusion h
  | .vF64 _, _ => rfl
  | .vStr _, _ => rfl
  | .vUnit, _ => rfl
  | .vNone, _ => rfl
  | .vSome x, h => by
    have h2 : (rtOK x && !encodesNull x) = true := h
    rw [Bool.and_eq_true] at h2
    have hnn : encodesNull x = false := by
      have := h2.2
      rwa [Bool.not_eq_true'] at this
    have hnull : (elemOf x).is_null = false := by rw [elemOf_is_null]; exact hnn
    show deserializeLike (.vSome x) (elemOf x) = .ok (.vSome x)
    simp [deserializeLike, hnull, deserialize_elemOf x h2.1, Except.map]
  | .vSeq xs, h => by
    have hl : rtOKList xs = true := h
    show deserializeLike (.vSeq xs) (.arr (elemOfList xs)) = .ok (.vSeq xs)
    simp [deserializeLike, Element.get_array, deserialize_elemOfList xs hl, Except.map]
  | .vTuple xs, h => by
    have hl : rtOKList xs = true := h
    show deserializeLike (.vTuple xs) (.arr (elemOfList xs)) = .ok (.vTuple xs)
    simp [deserializeLike, Element.get_array, deserialize_elemOfList xs hl, Except.map]
  | .vStruct fs, h => by
    have hl : rtOKFields fs = true := h
    show deserializeLike (.vStruct fs) (.obj (elemOfFields fs)) = .ok (.vStruct fs)
    simp [deserializeLike, Element.get_object, deserialize_elemOfFields fs hl, Except.map]
  | .vUnitVariant _, _ => rfl
  | .vNewtypeVariant n p, h => by
    have hp : rtOK p = true := h
    show deserializeLike (.vNewtypeVariant n p) (.obj (.cons n (elemOf p) .nil)) =
      .ok (.vNewtypeVariant n p)
    simp [deserializeLike, enumResolve, Element.get_type, Element.get_object,
      deserialize_elemOf p hp, Except.map]
  | .vTupleVariant n xs, h => by
    have hl : rtOKList xs = true := h
    show deserializeLike (.vTupleVariant n xs)
        (.obj (.cons n (.arr (elemOfList xs)) .nil)) = .ok (.vTupleVariant n xs)
    simp [deserializeLike, enumResolve, Element.get_type, Element.get_object,
      Element.get_array, deserialize_elemOfList xs hl, Except.map]
  | .vStructVariant n fs, h => by
    have hl : rtOKFields fs = true := h
    show deserializeLike (.vStructVariant n fs)
        (.obj (.cons n (.obj (elemOfFields fs)) .nil)) = .ok (.vStructVariant n fs)
    simp [deserializeLike, enumResolve, Element.get_type, Element.get_object,
      deserialize_elemOfFields fs hl, Except.map]
theorem deserialize_elemOfList : ∀ xs : TVList, rtOKList xs = true →
    deserializeLikeList xs (elemOfList xs) = .ok xs
  | .nil, _ => rfl
  | .cons x tl, h => by
    have h2 : (rtOK x && rtOKList tl) = true := h
    rw [Bool.and_eq_true] at h2
    show deserializeLikeList (.cons x tl) (.cons (elemOf x) (elemOfList tl)) = .ok (.cons x tl)
    simp [deserializeLikeList, deserialize_elemOf x h2.1, deserialize_elemOfList tl h2.2]
theorem deserialize_elemOfFields : ∀ fs : TVFields, rtOKFields fs = true →
    deserializeLikeFields fs (elemOfFields fs) = .ok fs
  | .nil, _ => rfl
  | .cons k x tl, h => by
    have h2 : (rtOK x && rtOKFields tl) = true := h
    rw [Bool.and_eq_true] at h2
    show deserializeLikeFields (.cons k x tl) (.cons k (elemOf x) (elemOfFields tl)) =
      .ok (.cons k x tl)
    simp [deserializeLikeFields, deserialize_elemOf x h2.1, deserialize_elemOfFields tl h2.2]
end

mutual
/-- Depth behavior of the converter: starting at recursion depth `d`, a
finite-double tree converts successfully when every node stays at depth at
most the ceiling (`d` plus the tree's height), and otherwise fails with the
depth error. -/
theorem conv_depth : ∀ (e : Element) (d : ℕ), finiteDoubles e = true →
    (d + eheight e ≤ MAX_NESTING_DEPTH → ∃ w, element_to_value_inner e d = .ok w) ∧
    (MAX_NESTING_DEPTH < d + eheight e →
      element_to_value_inner e d =
        .error (.serde ("nesting depth exceeds maximum of " ++ toString MAX_NESTING_DEPTH)))
  | .null, d, _ => by
    refine ⟨fun hd => ⟨.null, ?_⟩, fun hd => ?_⟩
    · have hn : ¬ (d > MAX_NESTING_DEPTH) := by simp [eheight] at hd; omega
      simp [element_to_value_inner, hn]
    · have hn : d > MAX_NESTING_DEPTH := by simp [eheight] at hd; omega
      simp [element_to_value_inner, hn]
  | .bool b, d, _ => by
    refine ⟨fun hd => ⟨.bool b, ?_⟩, fun hd => ?_⟩
    · have hn : ¬ (d > MAX_NESTING_DEPTH) := by simp [eheight] at hd; omega
      simp [element_to_value_inner, hn]
    · have hn : d > MAX_NESTING_DEPTH := by simp [eheight] at hd; omega
      simp [element_to_value_inner, hn]
  | .int64 v, d, _ => by
    refine ⟨fun hd => ⟨.num (.fromI64 v), ?_⟩, fun hd => ?_⟩
    · have hn : ¬ (d > MAX_NESTING_DEPTH) := by simp [eheight] at hd; omega
      simp [element_to_value_inner, hn]
    · have hn : d > MAX_NESTING_DEPTH := by simp [eheight] at hd; omega
      simp [element_to_value_inner, hn]
  | .uint64 n, d, _ => by
    refine ⟨fun hd => ⟨.num (.fromU64 n), ?_⟩, fun hd => ?_⟩
    · have hn : ¬ (d > MAX_NESTING_DEPTH) := by simp [eheight] at hd; omega
      simp [element_to_value_inner, hn]
    · have hn : d > MAX_NESTING_DEPTH := by simp [eheight] at hd; omega
      simp [element_to_value_inner, hn]
  | .str s, d, _ => by
    refine ⟨fun hd => ⟨.str s, ?_⟩, fun hd => ?_⟩
    · have hn : ¬ (d > MAX_NESTING_DEPTH) := by simp [eheight] at hd; omega
      simp [element_to_value_inner, hn]
    · have hn : d > MAX_NESTING_DEPTH := by simp [eheight] at hd; omega
      simp [element_to_value_inner, hn]
  | .double v, d, hfin => by
    have hfv : v.is_finite = true := hfin
    cases v with
    | finite q =>
      refine ⟨fun hd => ⟨.num (.float q), ?_⟩, fun hd => ?_⟩
      · have hn : ¬ (d > MAX_NESTING_DEPTH) := by simp [eheight] at hd; omega
        simp [element_to_value_inner, hn, JNumber.fromF64]
      · have hn : d > MAX_NESTING_DEPTH := by simp [eheight] at hd; omega
        simp [element_to_value_inner, hn]
    | nan => exact Bool.noConfusion hfv
    | inf b => exact Bool.noConfusion hfv
  | .arr xs, d, hfin => by
    have hfl : finiteDoublesList xs = true := hfin
    constructor
    · intro hd
      simp only [eheight] at hd
      have hn : ¬ (d > MAX_NESTING_DEPTH) := by omega
      obtain ⟨ws, hws⟩ := (conv_list xs (d + 1) hfl).1 (by omega)
      exact ⟨.arr ws, by simp [element_to_value_inner, hn, hws]⟩
    · intro hd
      simp only [eheight] at hd
      by_cases hdM : d > MAX_NESTING_DEPTH
      · simp [element_to_value_inner, hdM]
      · have herr := (conv_list xs (d + 1) hfl).2 (by omega) (by omega)
        simp [element_to_value_inner, hdM, herr]
  | .obj kvs, d, hfin => by
    have hfl : finiteDoublesFields kvs = true := hfin
    constructor
    · intro hd
      simp only [eheight] at hd
      have hn : ¬ (d > MAX_NESTING_DEPTH) := by omega
      obtain ⟨ws, hws⟩ := (conv_fields kvs (d + 1) hfl).1 (by omega)
      exact ⟨.obj ws, by simp [element_to_value_inner, hn, hws]⟩
    · intro hd
      simp only [eheight] at hd
      by_cases hdM : d > MAX_NESTING_DEPTH
      · simp [element_to_value_inner, hdM]
      · have herr := (conv_fields kvs (d + 1) hfl).2 (by omega) (by omega)
        simp [element_to_value_inner, hdM, herr]
theorem conv_list : ∀ (xs : EList) (d : ℕ), finiteDoublesList xs = true →
    (d + elHeights xs ≤ MAX_NESTING_DEPTH + 1 → ∃ ws, convEList xs d = .ok ws) ∧
    (d ≤ MAX_NESTING_DEPTH + 1 → MAX_NESTING_DEPTH + 1 < d + elHeights xs →
      convEList xs d =
        .error (.serde ("nesting depth exceeds maximum of " ++ toString MAX_NESTING_DEPTH)))
  | .nil, d, _ => by
    refine ⟨fun _ => ⟨.nil, rfl⟩, fun hdle hgt => ?_⟩
    exfalso
    simp [elHeights] at hgt
    omega
  | .cons e tl, d, hfin => by
    have h2 : (finiteDoubles e && finiteDoublesList tl) = true := hfin
    rw [Bool.and_eq_true] at h2
    constructor
    · intro hd
      simp only [elHeights] at hd
      have hA : d + (1 + eheight e) ≤ MAX_NESTING_DEPTH + 1 :=
        le_trans (Nat.add_le_add_left (Nat.le_max_left _ _) d) hd
      have hB : d + elHeights tl ≤ MAX_NESTING_DEPTH + 1 :=
        le_trans (Nat.add_le_add_left (Nat.le_max_right _ _) d) hd
      obtain ⟨w, hw⟩ := (conv_depth e d h2.1).1 (by omega)
      obtain ⟨ws, hws⟩ := (conv_list tl d h2.2).1 hB
      exact ⟨.cons w ws, by simp [convEList, hw, hws]⟩
    · intro hdle hgt
      simp only [elHeights] at hgt
      by_cases hce : MAX_NESTING_DEPTH < d + eheight e
      · have herr := (conv_depth e d h2.1).2 hce
        simp [convEList, herr]
      · obtain ⟨w, hw⟩ := (conv_depth e d h2.1).1 (by omega)
        have htl : MAX_NESTING_DEPTH + 1 < d + elHeights tl := by
          rcases le_total (1 + eheight e) (elHeights tl) with hle2 | hle2
          · rw [Nat.max_eq_right hle2] at hgt; exact hgt
          · rw [Nat.max_eq_left hle2] at hgt; omega
        have herr := (conv_list tl d h2.2).2 hdle htl
        simp [convEList, hw, herr]
theorem conv_fields : ∀ (kvs : EFields) (d : ℕ), finiteDoublesFields kvs = true →
    (d + efHeights kvs ≤ MAX_NESTING_DEPTH + 1 → ∃ ws, convEFields kvs d = .ok ws) ∧
    (d ≤ MAX_NESTING_DEPTH + 1 → MAX_NESTING_DEPTH + 1 < d + efHeights kvs →
      convEFields kvs d =
        .error (.serde ("nesting depth exceeds maximum of " ++ toString MAX_NESTING_DEPTH)))
  | .nil, d, _ => by
    refine ⟨fun _ => ⟨.nil, rfl⟩, fun hdle hgt => ?_⟩
    exfalso
    simp [efHeights] at hgt
    omega
  | .cons k e tl, d, hfin => by
    have h2 : (finiteDoubles e && finiteDoublesFields tl) = true := hfin
    rw [Bool.and_eq_true] at h2
    constructor
    · intro hd
      simp only [efHeights] at hd
      have hA : d + (1 + eheight e) ≤ MAX_NESTING_DEPTH + 1 :=
        le_trans (Nat.add_le_add_left (Nat.le_max_left _ _) d) hd
      have hB : d + efHeights tl ≤ MAX_NESTING_DEPTH + 1 :=
        le_trans (Nat.add_le_add_left (Nat.le_max_right _ _) d) hd
      obtain ⟨w, hw⟩ := (conv_depth e d h2.1).1 (by omega)
      obtain ⟨ws, hws⟩ := (conv_fields tl d h2.2).1 hB
      exact ⟨.cons k w ws, by simp [convEFields, hw, hws]⟩
    · intro hdle hgt
      simp only [efHeights] at hgt
      by_cases hce : MAX_NESTING_DEPTH < d + eheight e
      · have herr := (conv_depth e d h2.1).2 hce
        simp [convEFields, herr]
      · obtain ⟨w, hw⟩ := (conv_depth e d h2.1).1 (by omega)
        have htl : MAX_NESTING_DEPTH + 1 < d + efHeights tl := by
          rcases le_total (1 + eheight e) (efHeights tl) with hle2 | hle2
          · rw [Nat.max_eq_right hle2] at hgt; exact hgt
          · rw [Nat.max_eq_left hle2] at hgt; omega
        have herr := (conv_fields tl d h2.2).2 hdle htl
        simp [convEFields, hw, herr]
end

/-- A successful list conversion converts the elements pointwise, in
order. -/
theorem convEList_forall2 : ∀ (xs : EList) (d : ℕ) (ws : JList), convEList xs d = .ok ws →
    List.Forall₂ (fun (e : Element) (q : JValue) => element_to_value_inner e d = .ok q)
      xs.toList ws.toList
  | .nil, d, ws, h => by
    simp only [convEList] at h
    cases h
    exact List.Forall₂.nil
  | .cons e tl, d, ws, h => by
    simp only [convEList] at h
    cases hce : element_to_value_inner e d with
    | error er => rw [hce] at h; cases h
    | ok w =>
      rw [hce] at h
      cases hct : convEList tl d with
      | error er => rw [hct] at h; cases h
      | ok ws2 =>
        rw [hct] at h
        cases h
        simp only [EList.toList, JList.toList]
        exact List.Forall₂.cons hce (convEList_forall2 tl d ws2 hct)

/-- A successful field conversion keeps each key with its converted value,
in order. -/
theorem convEFields_forall2 : ∀ (kvs : EFields) (d : ℕ) (ws : JFields),
    convEFields kvs d = .ok ws →
    ws.names = kvs.names ∧
    List.Forall₂
      (fun (p : String × Element) (q : String × JValue) =>
        p.1 = q.1 ∧ element_to_value_inner p.2 d = .ok q.2)
      kvs.toList ws.toList
  | .nil, d, ws, h => by
    simp only [convEFields] at h
    cases h
    exact ⟨rfl, List.Forall₂.nil⟩
  | .cons k e tl, d, ws, h => by
    simp only [convEFields] at h
    cases hce : element_to_value_inner e d with
    | error er => rw [hce] at h; cases h
    | ok w =>
      rw [hce] at h
      cases hct : convEFields tl d with
      | error er => rw [hct] at h; cases h
      | ok ws2 =>
        rw [hct] at h
        cases h
        have rec := convEFields_forall2 tl d ws2 hct
        refine ⟨?_, List.Forall₂.cons ⟨rfl, hce⟩ rec.2⟩
        show k :: ws2.names = k :: tl.names
        rw [rec.1]

/-- On an all-elements-serializable list, the first-flag fold emits exactly
the comma-joined element encodings. -/
theorem encSeq_joinComma : ∀ xs : TVList, allElemsOk xs = true →
    encSeqToks xs true = joinComma (encList xs) ∧
    encSeqToks xs false = joinComma.joinCommaTail (encList xs) ∧
    encSeqErr xs true = none ∧ encSeqErr xs false = none
  | .nil, _ => ⟨rfl, rfl, rfl, rfl⟩
  | .cons x tl, h => by
    have h2 : (decide (encErr x = none) && allElemsOk tl) = true := h
    rw [Bool.and_eq_true, decide_eq_true_eq] at h2
    have rec := encSeq_joinComma tl h2.2
    refine ⟨?_, ?_, ?_, ?_⟩
    · rw [encSeq_cons_true x tl h2.1, rec.2.1]
      rfl
    · rw [encSeq_cons_false x tl h2.1, rec.2.1]
      rfl
    · rw [(encSeq_cons_ok x tl true h2.1).2]
      exact rec.2.2.2
    · rw [(encSeq_cons_ok x tl false h2.1).2]
      exact rec.2.2.2

theorem joinCommaTail_count : ∀ r : List (List Token),
    (joinComma.joinCommaTail r).count .comma =
      r.length + (r.map (fun l => l.count .comma)).sum
  | [] => by simp [joinComma.joinCommaTail]
  | y :: r => by
    simp [joinComma.joinCommaTail, List.count_cons, List.count_append,
      joinCommaTail_count r]
    omega

theorem joinComma_count : ∀ L : List (List Token),
    (joinComma L).count .comma = (L.length - 1) + (L.map (fun l => l.count .comma)).sum
  | [] => by simp [joinComma]
  | x :: rest => by
    simp [joinComma, List.count_append, joinCommaTail_count rest]
    omega

/-!  The claims.  -/

/-- C1: the spec requires that both float entry points reject NaN and the
infinities before any bytes are appended.  The 64-bit entry point does; the
32-bit entry point (`serialize_f32`) widens with `v as f64` and appends
unconditionally, so a NaN or infinite `f32` is emitted successfully — the
code contradicts the stated invariant at the 32-bit entry point. -/
theorem serialize_f32_nonfinite_emitted :
    (∀ b : StringBuilder,
      serializeValue (.vF32 .nan) b = (b.push (.jF64 .nan), none)) ∧
    to_string (.vF32 .nan) = .ok [Token.jF64 F64.nan] ∧
    to_string (.vF32 (.inf false)) = .ok [Token.jF64 (F64.inf false)] ∧
    to_string (.vF32 (.inf true)) = .ok [Token.jF64 (F64.inf true)] ∧
    (∀ b : StringBuilder, serializeValue (.vF64 .nan) b =
      (b, some (.serde "cannot serialize non-finite float: NaN"))) ∧
    to_string (.vF64 .nan) = .error (.serde "cannot serialize non-finite float: NaN") :=
  ⟨fun _ => rfl, rfl, rfl, rfl, fun _ => rfl, rfl⟩

/-- C2 (counterexample): an enum request on an object with two keys does
not fail — `deserialize_enum` takes `iter.next()`, so the first key/value
pair is resolved and the second key is ignored. -/
theorem enum_multikey_not_rejected :
    enumResolve (.obj (.cons "a" Element.null (.cons "b" (.bool true) .nil))) =
      .ok (.keyedVariant "a" Element.null) ∧
    ∀ er : SimdJsonError,
      enumResolve (.obj (.cons "a" Element.null (.cons "b" (.bool true) .nil))) ≠
        .error er := by
  refine ⟨rfl, fun er h => ?_⟩
  rw [show enumResolve (.obj (.cons "a" Element.null (.cons "b" (.bool true) .nil))) =
      .ok (.keyedVariant "a" Element.null) from rfl] at h
  exact Except.noConfusion h

/-- C2 (amended): an enum request on an object node fails with the
single-key error exactly when the object has zero keys; an object with one
or more keys resolves to its first key as the variant name and that key's
value as the payload node (extra keys are ignored, not rejected). -/
theorem enum_object_first_key_resolution :
    enumResolve (Element.obj .nil) =
      .error (.serde "expected an object with a single key for enum") ∧
    ∀ (k : String) (v : Element) (rest : EFields),
      enumResolve (.obj (.cons k v rest)) = .ok (.keyedVariant k v) :=
  ⟨rfl, fun _ _ _ => rfl⟩

/-- C3: a successful generic conversion of an object node yields an Object
value whose keys are the source keys in the same order, each paired with
the conversion of its value, and a successful conversion of an array node
yields the element conversions in order. -/
theorem conversion_preserves_order :
    (∀ (kvs : EFields) (w : JValue), element_to_value (.obj kvs) = .ok w →
      ∃ ws : JFields, w = .obj ws ∧ ws.names = kvs.names ∧
        List.Forall₂
          (fun (p : String × Element) (q : String × JValue) =>
            p.1 = q.1 ∧ element_to_value_inner p.2 1 = .ok q.2)
          kvs.toList ws.toList) ∧
    (∀ (xs : EList) (w : JValue), element_to_value (.arr xs) = .ok w →
      ∃ ws : JList, w = .arr ws ∧
        List.Forall₂ (fun (e : Element) (q : JValue) => element_to_value_inner e 1 = .ok q)
          xs.toList ws.toList) := by
  constructor
  · intro kvs w hw
    have h0 : (match convEFields kvs 1 with
        | .ok ws => (.ok (.obj ws) : Except SimdJsonError JValue)
        | .error er => .error er) = .ok w := hw
    cases hc : convEFields kvs 1 with
    | error er => rw [hc] at h0; cases h0
    | ok ws =>
      rw [hc] at h0
      cases h0
      have hforall := convEFields_forall2 kvs 1 ws hc
      exact ⟨ws, rfl, hforall.1, hforall.2⟩
  · intro xs w hw
    have h0 : (match convEList xs 1 with
        | .ok ws => (.ok (.arr ws) : Except SimdJsonError JValue)
        | .error er => .error er) = .ok w := hw
    cases hc : convEList xs 1 with
    | error er => rw [hc] at h0; cases h0
    | ok ws =>
      rw [hc] at h0
      cases h0
      exact ⟨ws, rfl, convEList_forall2 xs 1 ws hc⟩

/-- C3 witness. -/
theorem conversion_preserves_order_witness :
    (element_to_value (.obj (.cons "b" Element.null (.cons "a" (.bool true) .nil))) =
      .ok (.obj (.cons "b" .null (.cons "a" (.bool true) .nil))) ∧
      ∃ ws : JFields,
        JValue.obj (.cons "b" .null (.cons "a" (.bool true) .nil)) = .obj ws ∧
        ws.names = (EFields.cons "b" Element.null (.cons "a" (.bool true) .nil)).names ∧
        List.Forall₂
          (fun (p : String × Element) (q : String × JValue) =>
            p.1 = q.1 ∧ element_to_value_inner p.2 1 = .ok q.2)
          (EFields.cons "b" Element.null (.cons "a" (.bool true) .nil)).toList ws.toList) ∧
    (element_to_value (.arr (.cons (.int64 1) (.cons (.str "x") .nil))) =
      .ok (.arr (.cons (.num (.posInt 1)) (.cons (.str "x") .nil))) ∧
      ∃ ws : JList,
        JValue.arr (.cons (.num (.posInt 1)) (.cons (.str "x") .nil)) = .arr ws ∧
        List.Forall₂ (fun (e : Element) (q : JValue) => element_to_value_inner e 1 = .ok q)
          (EList.cons (.int64 1) (.cons (.str "x") .nil)).toList ws.toList) :=
  ⟨⟨rfl, conversion_preserves_order.1 (.cons "b" Element.null (.cons "a" (.bool true) .nil))
      (.obj (.cons "b" .null (.cons "a" (.bool true) .nil))) rfl⟩,
   ⟨rfl, conversion_preserves_order.2 (.cons (.int64 1) (.cons (.str "x") .nil))
      (.arr (.cons (.num (.posInt 1)) (.cons (.str "x") .nil))) rfl⟩⟩

/-- C4: on a parser-produced DOM (all doubles finite), the generic
conversion succeeds whenever the nesting height stays at or below the
ceiling of 128 and fails with the depth error whenever it exceeds it; the
embedded converter is a total function, so the recursion terminates on
every input. -/
theorem generic_conversion_depth_bound (e : Element) (hfin : finiteDoubles e = true) :
    (eheight e ≤ 128 → ∃ w, element_to_value e = .ok w) ∧
    (128 < eheight e →
      element_to_value e = .error (.serde "nesting depth exceeds maximum of 128")) := by
  have hM : MAX_NESTING_DEPTH = 128 := rfl
  have hmsg : ("nesting depth exceeds maximum of " ++ toString MAX_NESTING_DEPTH) =
      "nesting depth exceeds maximum of 128" := rfl
  have hc := conv_depth e 0 hfin
  constructor
  · intro hd
    exact hc.1 (by omega)
  · intro hd
    have h2 := hc.2 (by omega)
    rw [hmsg] at h2
    exact h2

set_option maxRecDepth 40000 in
/-- C4 witness: the 200-deep document of the repository's depth test fails
with the depth error; a 128-deep document converts. -/
theorem generic_conversion_depth_bound_witness :
    (finiteDoubles (nestObj 200) = true ∧ 128 < eheight (nestObj 200) ∧
      element_to_value (nestObj 200) =
        .error (.serde "nesting depth exceeds maximum of 128")) ∧
    (finiteDoubles (nestObj 128) = true ∧ eheight (nestObj 128) ≤ 128 ∧
      ∃ w, element_to_value (nestObj 128) = .ok w) := by
  refine ⟨⟨by decide, by decide, ?_⟩, ⟨by decide, by decide, ?_⟩⟩
  · exact (generic_conversion_depth_bound (nestObj 200) (by decide)).2 (by decide)
  · exact (generic_conversion_depth_bound (nestObj 128) (by decide)).1 (by decide)

/-- C5: every narrowing integer request first reads the node's natural
64-bit value and then performs a checked narrowing: it returns exactly that
value when it fits the target width and otherwise fails with the overflow
error naming the source value and the target width — never wrapping or
saturating. -/
theorem narrowing_integer_checked :
    (∀ (e : Element) (n : ℕ), e.get_uint64 = .ok n →
      (n ≤ 255 → deserialize_u8 e = .ok n) ∧
      (¬ n ≤ 255 → deserialize_u8 e =
        .error (.serde ("u64 value " ++ toString n ++ " out of range for u8")))) ∧
    (∀ (e : Element) (n : ℕ), e.get_uint64 = .ok n →
      (n ≤ 65535 → deserialize_u16 e = .ok n) ∧
      (¬ n ≤ 65535 → deserialize_u16 e =
        .error (.serde ("u64 value " ++ toString n ++ " out of range for u16")))) ∧
    (∀ (e : Element) (n : ℕ), e.get_uint64 = .ok n →
      (n ≤ 4294967295 → deserialize_u32 e = .ok n) ∧
      (¬ n ≤ 4294967295 → deserialize_u32 e =
        .error (.serde ("u64 value " ++ toString n ++ " out of range for u32")))) ∧
    (∀ (e : Element) (v : ℤ), e.get_int64 = .ok v →
      (-128 ≤ v ∧ v ≤ 127 → deserialize_i8 e = .ok v) ∧
      (¬ (-128 ≤ v ∧ v ≤ 127) → deserialize_i8 e =
        .error (.serde ("i64 value " ++ toString v ++ " out of range for i8")))) ∧
    (∀ (e : Element) (v : ℤ), e.get_int64 = .ok v →
      (-32768 ≤ v ∧ v ≤ 32767 → deserialize_i16 e = .ok v) ∧
      (¬ (-32768 ≤ v ∧ v ≤ 32767) → deserialize_i16 e =
        .error (.serde ("i64 value " ++ toString v ++ " out of range for i16")))) ∧
    (∀ (e : Element) (v : ℤ), e.get_int64 = .ok v →
      (-2147483648 ≤ v ∧ v ≤ 2147483647 → deserialize_i32 e = .ok v) ∧
      (¬ (-2147483648 ≤ v ∧ v ≤ 2147483647) → deserialize_i32 e =
        .error (.serde ("i64 value " ++ toString v ++ " out of range for i32")))) := by
  refine ⟨fun e n hn => ⟨fun hb => ?_, fun hb => ?_⟩,
    fun e n hn => ⟨fun hb => ?_, fun hb => ?_⟩,
    fun e n hn => ⟨fun hb => ?_, fun hb => ?_⟩,
    fun e v hv => ⟨fun hb => ?_, fun hb => ?_⟩,
    fun e v hv => ⟨fun hb => ?_, fun hb => ?_⟩,
    fun e v hv => ⟨fun hb => ?_, fun hb => ?_⟩⟩ <;>
    simp_all [deserialize_u8, deserialize_u16, deserialize_u32,
      deserialize_i8, deserialize_i16, deserialize_i32]

/-- C5 witness: the six boundary examples of the spec each fail with the
named overflow message, and an in-range value narrows to itself. -/
theorem narrowing_integer_checked_witness :
    Element.get_uint64 (.uint64 256) = .ok 256 ∧
    deserialize_u8 (.uint64 256) =
      .error (.serde "u64 value 256 out of range for u8") ∧
    deserialize_i8 (.int64 128) =
      .error (.serde "i64 value 128 out of range for i8") ∧
    deserialize_i8 (.int64 (-129)) =
      .error (.serde "i64 value -129 out of range for i8") ∧
    deserialize_u16 (.uint64 65536) =
      .error (.serde "u64 value 65536 out of range for u16") ∧
    deserialize_u32 (.uint64 4294967296) =
      .error (.serde "u64 value 4294967296 out of range for u32") ∧
    deserialize_i32 (.int64 2147483648) =
      .error (.serde "i64 value 2147483648 out of range for i32") ∧
    deserialize_u8 (.uint64 255) = .ok 255 :=
  ⟨rfl,
   (narrowing_integer_checked.1 (.uint64 256) 256 rfl).2 (by omega),
   (narrowing_integer_checked.2.2.2.1 (.int64 128) 128 rfl).2 (by omega),
   (narrowing_integer_checked.2.2.2.1 (.int64 (-129)) (-129) rfl).2 (by omega),
   (narrowing_integer_checked.2.1 (.uint64 65536) 65536 rfl).2 (by omega),
   (narrowing_integer_checked.2.2.1 (.uint64 4294967296) 4294967296 rfl).2 (by omega),
   (narrowing_integer_checked.2.2.2.2.2 (.int64 2147483648) 2147483648 rfl).2 (by omega),
   (narrowing_integer_checked.1 (.uint64 255) 255 rfl).1 (by omega)⟩

/-- C6 (amended): for every value of the round-trip domain — structs,
sequences, tuples, optionals and all four enum shapes over the scalar
kinds, with machine-range integers, finite 64-bit floats, and no present
optional whose payload itself encodes as `null` — serializing, parsing the
output back into a DOM node, and deserializing that node at the value's
own shape returns the value itself. -/
theorem roundtrip_typed_values (v : TypedValue) (h : rtOK v = true) :
    ∃ (ts : List Token) (e : Element),
      to_string v = .ok ts ∧ parseTop ts = some e ∧ deserializeLike v e = .ok v := by
  have herr := rtOK_encErr v h
  have hts : to_string v = .ok (encToks v) := by
    simp only [to_string]
    rw [serializeValue_append v StringBuilder.new, herr]
    simp [StringBuilder.into_string, StringBuilder.new]
  refine ⟨encToks v, elemOf v, hts, ?_, deserialize_elemOf v h⟩
  have hp := parse_encToks v h ((encToks v).length + 1) [] (by omega)
  rw [List.append_nil] at hp
  simp only [parseTop]
  rw [hp]

/-- C6 (counterexample): the claim as stated fails at `Some(None)` (an
optional whose present payload encodes as `null`): it serializes to
`null`, which parses to the null node, and deserializing that node at the
optional shape yields `None`, not `Some(None)`. -/
theorem roundtrip_counterexample :
    to_string (TypedValue.vSome .vNone) = .ok [Token.jNull] ∧
    parseTop [Token.jNull] = some Element.null ∧
    deserializeLike (TypedValue.vSome .vNone) Element.null = .ok TypedValue.vNone ∧
    TypedValue.vNone ≠ TypedValue.vSome .vNone :=
  ⟨rfl, rfl, rfl, fun h => TypedValue.noConfusion h⟩

/-- C6 witness: the round-trip theorem applied to a value containing a
struct, a sequence, a tuple, present and absent optionals, and all four
enum shapes. -/
theorem roundtrip_typed_values_witness :
    rtOK sampleRoundtripValue = true ∧
    ∃ (ts : List Token) (e : Element),
      to_string sampleRoundtripValue = .ok ts ∧ parseTop ts = some e ∧
      deserializeLike sampleRoundtripValue e = .ok sampleRoundtripValue :=
  ⟨rfl, roundtrip_typed_values sampleRoundtripValue rfl⟩

/-- C7: serializing a sequence whose elements all serialize emits the
opening bracket, the element encodings joined by a comma before every
element except the first, and the closing bracket — so the element
encodings (nested sequences included) appear verbatim and the emission
state of one sequence cannot disturb another — and the joined body carries
exactly `n - 1` separating commas beyond those inside the elements (an
empty sequence emits the brackets alone). -/
theorem seq_comma_discipline (xs : TVList) (b : StringBuilder) (h : allElemsOk xs = true) :
    serializeValue (.vSeq xs) b =
      (⟨b.capacity,
        b.toks ++ [Token.startArr] ++ joinComma (encList xs) ++ [Token.endArr]⟩, none) ∧
    (joinComma (encList xs)).count .comma =
      ((encList xs).length - 1) + ((encList xs).map (fun l => l.count .comma)).sum := by
  have hj := encSeq_joinComma xs h
  constructor
  · have happ := serializeValue_append (.vSeq xs) b
    rw [happ, (encToks_vSeq xs hj.2.2.1).2, (encToks_vSeq xs hj.2.2.1).1, hj.1]
    simp [List.append_assoc]
  · exact joinComma_count (encList xs)

/-- C7 witness: a three-element sequence with a nested sequence in the
middle — the outer level has exactly two separating commas and the nested
encoding appears verbatim. -/
theorem seq_comma_discipline_witness :
    allElemsOk sampleSeq = true ∧
    serializeValue (.vSeq sampleSeq) StringBuilder.new =
      (⟨1024, [Token.startArr, .jI64 1, .comma, .startArr, .jI64 2, .comma, .jI64 3,
        .endArr, .comma, .jI64 4, .endArr]⟩, none) ∧
    (joinComma (encList sampleSeq)).count .comma =
      ((encList sampleSeq).length - 1) +
        ((encList sampleSeq).map (fun l => l.count .comma)).sum :=
  ⟨rfl, (seq_comma_discipline sampleSeq StringBuilder.new rfl).1,
    (seq_comma_discipline sampleSeq StringBuilder.new rfl).2⟩

/-- C8: requesting a value from the map cursor while the pending-value slot
is empty fails with the protocol-misuse error (no default is substituted);
after a successful key request the slot holds exactly the node paired with
that key, one value request returns it and empties the slot, and a second
immediate value request fails. -/
theorem map_access_two_phase :
    (∀ m : MapAccessor, m.pending_value = none →
      m.next_value_seed = .error (.serde "next_value_seed called before next_key_seed")) ∧
    (∀ (k : String) (v : Element) (tl : EFields) (p : Option Element),
      MapAccessor.next_key_seed ⟨.cons k v tl, p⟩ = (some k, ⟨tl, some v⟩) ∧
      MapAccessor.next_value_seed ⟨tl, some v⟩ = .ok (v, ⟨tl, none⟩) ∧
      MapAccessor.next_value_seed ⟨tl, none⟩ =
        .error (.serde "next_value_seed called before next_key_seed")) := by
  refine ⟨fun m hm => ?_, fun k v tl p => ⟨rfl, rfl, rfl⟩⟩
  simp [MapAccessor.next_value_seed, hm]

/-- C8 witness: a fresh cursor has an empty pending slot and the value
request fails with the protocol-misuse error. -/
theorem map_access_two_phase_witness :
    (MapAccessor.new .nil).pending_value = none ∧
    (MapAccessor.new .nil).next_value_seed =
      .error (.serde "next_value_seed called before next_key_seed") :=
  ⟨rfl, map_access_two_phase.1 (MapAccessor.new .nil) rfl⟩

/-- C9: the capacity-hinted serialization entry point returns exactly the
same result as the un-hinted one for every value and every capacity — the
hint only pre-allocates, and no append operation reads the capacity. -/
theorem capacity_hint_equivalence (v : TypedValue) (c : ℕ) :
    to_string_with_capacity v c = to_string v := by
  simp only [to_string, to_string_with_capacity]
  rw [serializeValue_append v (StringBuilder.with_capacity c),
    serializeValue_append v StringBuilder.new]
  cases encErr v <;> simp [StringBuilder.into_string, StringBuilder.new]

/-- C10: a 32-bit float request on a Double node always succeeds — the
narrowing is the unchecked `as f32` cast, never an error source — with NaN
passed through, infinities preserved, and finite doubles of magnitude
beyond the binary32 overflow bound accepted as the like-signed infinity. -/
theorem f32_narrowing_unchecked (d : F64) (e : Element) (he : e = .double d) :
    (∃ x : F32, deserialize_f32 e = .ok x) ∧
    (d = .nan → deserialize_f32 e = .ok .nan) ∧
    (∀ s : Bool, d = .inf s → deserialize_f32 e = .ok (.inf s)) ∧
    (∀ q : ℚ, d = .finite q → f32OverflowBound ≤ |q| →
      deserialize_f32 e = .ok (.inf (decide (q < 0)))) := by
  subst he
  refine ⟨⟨f64ToF32 d, rfl⟩, fun hd => ?_, fun s hd => ?_, fun q hd hq => ?_⟩
  · subst hd; rfl
  · subst hd; rfl
  · subst hd
    simp [deserialize_f32, Element.get_double, f64ToF32, hq, Except.map]

/-- C10 witness: NaN passes through and a double far beyond the binary32
range becomes positive infinity, both without error. -/
theorem f32_narrowing_unchecked_witness :
    (Element.double F64.nan = Element.double F64.nan) ∧
    deserialize_f32 (.double .nan) = .ok F32.nan ∧
    deserialize_f32 (.double (.finite (2 ^ 200))) = .ok (.inf false) := by
  refine ⟨rfl, (f32_narrowing_unchecked .nan (.double .nan) rfl).2.1 rfl, ?_⟩
  have h := (f32_narrowing_unchecked (.finite (2 ^ 200)) (.double (.finite (2 ^ 200))) rfl).2.2.2
    (2 ^ 200) rfl (by rw [abs_of_nonneg (by positivity)]; norm_num [f32OverflowBound])
  have h0 : (0 : ℚ) < 2 ^ 200 := by positivity
  have hd : decide ((2 ^ 200 : ℚ) < 0) = false := decide_eq_false (not_lt.mpr h0.le)
  rw [hd] at h
  exact h

end SimdJsonRust
